import Mathlib

/-
Shallow embedding of the neuralca repository (Neural Cellular Automata demo).

Numbers: the JS code computes with IEEE doubles / Float32Array entries, but every
value handled by the claims below is produced from booleans (0.0 / 1.0), small
integer sums and exact divisions, so we model numeric cell data with ℚ.
Coordinates are JS numbers used as integers; we model them with ℤ.

Sources embedded here:
  src/js/Grid.js            (padding variant, state-vector width 5)
  src/unnamed/part_002      (torus variant, state-vector width 2)
  src/js/CellularAutomata.js
  src/js/NeuralNetwork.js   (predictBatch is abstracted as a pure function)
  src/js/GeneticAlgorithm.js
The two Grid variants are textually identical except for the state-vector
width constant (5 vs 2) and the getCell boundary policy, so the embedding is
parameterized by a stateLen field and a Boundary tag carried in the Grid.
-/

/-- Cell record from Grid.js: on flag plus state vector (Float32Array of width K).
The JS field is named on, which is a reserved token in Lean, hence isOn. -/
structure Cell where
  isOn : Bool
  stateVector : List ℚ
deriving DecidableEq

/-- Which Grid variant is in effect: wrap-around (src/unnamed/part_002) or
zero-padding boundary (src/js/Grid.js). -/
inductive Boundary
  | torus
  | padding
deriving DecidableEq

/-- Grid from Grid.js: width, height and the 2-D cell array. The JS array
cells[y][x] holds entries only for in-range indices; the embedding uses a total
function whose out-of-range values are never read by any operation. stateLen is
the build-time state-vector width constant (2 in the torus variant, 5 in the
padding variant). -/
structure Grid where
  width : ℕ
  height : ℕ
  stateLen : ℕ
  boundary : Boundary
  cells : ℤ → ℤ → Cell

/-- A fresh all-zero state vector, new Float32Array(K). -/
def zeros (k : ℕ) : List ℚ := List.replicate k 0

/-- JS remainder operator (truncated, sign of the dividend). -/
def jsMod (a b : ℤ) : ℤ := Int.tmod a b

/-- Torus wrap from part_002 getCell: ((x % w) + w) % w with the JS % operator. -/
def wrapCoord (x : ℤ) (w : ℕ) : ℤ := jsMod (jsMod x (w : ℤ) + (w : ℤ)) (w : ℤ)

/-- In-range test shared by the out-of-bounds guards of Grid.js. -/
def inRange (g : Grid) (x y : ℤ) : Prop :=
  0 ≤ x ∧ x < (g.width : ℤ) ∧ 0 ≤ y ∧ y < (g.height : ℤ)

instance (g : Grid) (x y : ℤ) : Decidable (inRange g x y) := by
  unfold inRange; infer_instance

/-- getCell: torus variant wraps both coordinates (part_002 lines 29-34); padding
variant returns a synthetic off cell with an all-zero state vector for any
out-of-range coordinate (Grid.js lines 29-38). -/
def getCell (g : Grid) (x y : ℤ) : Cell :=
  match g.boundary with
  | .torus => g.cells (wrapCoord y g.height) (wrapCoord x g.width)
  | .padding =>
      if x < 0 ∨ (g.width : ℤ) ≤ x ∨ y < 0 ∨ (g.height : ℤ) ≤ y then
        { isOn := false, stateVector := zeros g.stateLen }
      else g.cells y x

/-- setCell (identical in both variants, Grid.js lines 47-56 / part_002 43-52):
silent no-op out of range; otherwise always writes the on flag, and overwrites
the state vector only when a non-null vector of exactly the expected length is
supplied (stateVector.set copies it in full in that case). -/
def setCell (g : Grid) (x y : ℤ) (onVal : Bool) (sv : Option (List ℚ)) : Grid :=
  if x < 0 ∨ (g.width : ℤ) ≤ x ∨ y < 0 ∨ (g.height : ℤ) ≤ y then g
  else
    { g with cells := fun y' x' =>
        if y' = y ∧ x' = x then
          { isOn := onVal
            stateVector :=
              match sv with
              | some v => if v.length = g.stateLen then v else (g.cells y x).stateVector
              | none => (g.cells y x).stateVector }
        else g.cells y' x' }

/-- getNeighbors: the five cells in the fixed order top, bottom, left, right, self. -/
def getNeighbors (g : Grid) (x y : ℤ) : List Cell :=
  [getCell g x (y - 1), getCell g x (y + 1), getCell g (x - 1) y, getCell g (x + 1) y,
    getCell g x y]

/-- Per-neighbor contribution to the flat network input: the on/off bit followed by
the K state-vector floats (inner loop of getNeighborInput). -/
def cellVec (k : ℕ) (c : Cell) : List ℚ :=
  (if c.isOn then (1 : ℚ) else 0) :: (List.range k).map (fun i => c.stateVector.getD i 0)

/-- getNeighborInput: flat 5*(1+K) input vector built by concatenating cellVec over
the five neighbors in order. -/
def getNeighborInput (g : Grid) (x y : ℤ) : List ℚ :=
  ((getNeighbors g x y).map (cellVec g.stateLen)).flatten

/-- clear(): loops over all in-range cells, switching them off and zero-filling the
state vector in place (fill keeps the array length). -/
def clearGrid (g : Grid) : Grid :=
  { g with cells := fun y x =>
      if 0 ≤ x ∧ x < (g.width : ℤ) ∧ 0 ≤ y ∧ y < (g.height : ℤ) then
        { isOn := false, stateVector := List.replicate (g.cells y x).stateVector.length 0 }
      else g.cells y x }

/-- Grid invariant from the data model: every stored state vector has exactly
stateLen entries (established by the constructor and preserved by setCell). -/
def WellFormed (g : Grid) : Prop :=
  ∀ x y : ℤ, inRange g x y → (g.cells y x).stateVector.length = g.stateLen

/-- Network wrapper from NeuralNetwork.js. The TensorFlow model behind
predict/predictBatch is a fixed pure function from the flat neighborhood vector
to a new cell value {on, stateVector} (predictBatch maps it over the batch;
model.predict runs in inference mode, so it is deterministic). The embedding
abstracts that function as the field f and keeps the isInitialized flag that
guards update(). -/
structure Network where
  isInitialized : Bool
  f : List ℚ → Cell

/-- Row-major cell enumeration of CellularAutomata.update phase 1: outer loop
over y, inner loop over x. -/
def rowMajorPositions (w h : ℕ) : List (ℤ × ℤ) :=
  (List.range h).flatMap (fun (y : ℕ) => (List.range w).map (fun (x : ℕ) => ((x : ℤ), (y : ℤ))))

/-- Phase 3 of update(): write every computed state back via setCell, in the
order the (position, newState) pairs were collected. -/
def commitWrites (g : Grid) (l : List ((ℤ × ℤ) × Cell)) : Grid :=
  l.foldl (fun acc pr => setCell acc pr.1.1 pr.1.2 pr.2.isOn (some pr.2.stateVector)) g

/-- Phases 1-2 of update(): collect the neighbor inputs of every cell from the
current grid (row-major), then batch-predict newStates := predictBatch inputs,
pairing each position with its computed new state. -/
def updatePairs (f : List ℚ → Cell) (g : Grid) : List ((ℤ × ℤ) × Cell) :=
  (rowMajorPositions g.width g.height).zip
    (((rowMajorPositions g.width g.height).map (fun p => getNeighborInput g p.1 p.2)).map f)

/-- The grid produced by one update() step of an initialized network. -/
def updateFn (f : List ℚ → Cell) (g : Grid) : Grid :=
  commitWrites g (updatePairs f g)

/-- CellularAutomata.update (lines 32-62): throws when the network is not
initialized, otherwise runs the three phases. -/
def caUpdate (net : Network) (g : Grid) : Except String Grid :=
  if net.isInitialized then .ok (updateFn net.f g)
  else .error "Neural network not initialized. Call neuralNetwork.initialize() first."

theorem wrapCoord_eq_emod (x : ℤ) (w : ℕ) (hw : 0 < w) : wrapCoord x w = x % (w : ℤ) := by
  have hw' : (0 : ℤ) < (w : ℤ) := by exact_mod_cast hw
  unfold wrapCoord jsMod
  have h1 : Int.tmod x w = x - w * x.tdiv w := Int.tmod_def x w
  have hlt : Int.tmod x w < w := Int.tmod_lt_of_pos x hw'
  have hgt : -(w : ℤ) < Int.tmod x w := by
    have h2 : Int.tmod (-x) w = -(Int.tmod x w) := by
      simp [Int.tmod_def, Int.neg_tdiv]; ring
    have h3 : Int.tmod (-x) w < w := Int.tmod_lt_of_pos (-x) hw'
    rcases le_or_lt 0 x with hx | hx
    · have := Int.tmod_nonneg (w : ℤ) hx; omega
    · omega
  have h4 : (0 : ℤ) ≤ Int.tmod x w + w := by omega
  have h5 : Int.tmod (Int.tmod x w + w) w = (Int.tmod x w + w) % w :=
    Int.tmod_eq_emod h4 (le_of_lt hw')
  rw [h5, h1]
  have h6 : x - (w : ℤ) * x.tdiv w + w = x + (w : ℤ) * (1 - x.tdiv w) := by ring
  rw [h6, Int.add_mul_emod_self_left]

theorem wrapCoord_of_inRange {x : ℤ} {w : ℕ} (h0 : 0 ≤ x) (h1 : x < (w : ℤ)) :
    wrapCoord x w = x := by
  have hw : 0 < w := by omega
  rw [wrapCoord_eq_emod x w hw]
  exact Int.emod_eq_of_lt h0 h1

theorem wrapCoord_mem_range (x : ℤ) (w : ℕ) (hw : 0 < w) :
    0 ≤ wrapCoord x w ∧ wrapCoord x w < (w : ℤ) := by
  have hw' : (0 : ℤ) < (w : ℤ) := by exact_mod_cast hw
  rw [wrapCoord_eq_emod x w hw]
  exact ⟨Int.emod_nonneg x (by omega), Int.emod_lt_of_pos x hw'⟩

theorem wrapCoord_add (y d : ℤ) (w : ℕ) (hw : 0 < w) :
    wrapCoord (wrapCoord y w + d) w = wrapCoord (y + d) w := by
  rw [wrapCoord_eq_emod _ w hw, wrapCoord_eq_emod _ w hw, wrapCoord_eq_emod _ w hw,
    Int.add_emod (y % w) d, Int.emod_emod_of_dvd y dvd_rfl, ← Int.add_emod]

theorem wrapCoord_idem (x : ℤ) (w : ℕ) (hw : 0 < w) :
    wrapCoord (wrapCoord x w) w = wrapCoord x w := by
  obtain ⟨h0, h1⟩ := wrapCoord_mem_range x w hw
  exact wrapCoord_of_inRange h0 h1

/-- Result of writing one computed new state into a cell via setCell: the on flag
always changes, the state vector only when the supplied vector has exactly the
expected length. -/
def writeCell (k : ℕ) (c out : Cell) : Cell :=
  { isOn := out.isOn
    stateVector := if out.stateVector.length = k then out.stateVector else c.stateVector }

theorem setCell_width (g : Grid) (x y : ℤ) (o : Bool) (sv : Option (List ℚ)) :
    (setCell g x y o sv).width = g.width := by
  unfold setCell; split <;> rfl

theorem setCell_height (g : Grid) (x y : ℤ) (o : Bool) (sv : Option (List ℚ)) :
    (setCell g x y o sv).height = g.height := by
  unfold setCell; split <;> rfl

theorem setCell_stateLen (g : Grid) (x y : ℤ) (o : Bool) (sv : Option (List ℚ)) :
    (setCell g x y o sv).stateLen = g.stateLen := by
  unfold setCell; split <;> rfl

theorem setCell_boundary (g : Grid) (x y : ℤ) (o : Bool) (sv : Option (List ℚ)) :
    (setCell g x y o sv).boundary = g.boundary := by
  unfold setCell; split <;> rfl

theorem setCell_cells_of_ne (g : Grid) (x y : ℤ) (o : Bool) (sv : Option (List ℚ))
    (x' y' : ℤ) (h : ¬(x' = x ∧ y' = y)) :
    (setCell g x y o sv).cells y' x' = g.cells y' x' := by
  unfold setCell
  split
  · rfl
  · simp only
    rw [if_neg (fun hc => h ⟨hc.2, hc.1⟩)]

theorem setCell_cells_self (g : Grid) (x y : ℤ) (o : Bool) (v : List ℚ)
    (h : inRange g x y) :
    (setCell g x y o (some v)).cells y x =
      { isOn := o
        stateVector := if v.length = g.stateLen then v else (g.cells y x).stateVector } := by
  obtain ⟨h1, h2, h3, h4⟩ := h
  unfold setCell
  rw [if_neg (by omega)]
  simp

theorem commitWrites_cons (g : Grid) (q : (ℤ × ℤ) × Cell) (l : List ((ℤ × ℤ) × Cell)) :
    commitWrites g (q :: l) =
      commitWrites (setCell g q.1.1 q.1.2 q.2.isOn (some q.2.stateVector)) l := rfl

theorem commitWrites_width (g : Grid) (l : List ((ℤ × ℤ) × Cell)) :
    (commitWrites g l).width = g.width := by
  induction l generalizing g with
  | nil => rfl
  | cons q rest ih => rw [commitWrites_cons, ih, setCell_width]

theorem commitWrites_height (g : Grid) (l : List ((ℤ × ℤ) × Cell)) :
    (commitWrites g l).height = g.height := by
  induction l generalizing g with
  | nil => rfl
  | cons q rest ih => rw [commitWrites_cons, ih, setCell_height]

theorem commitWrites_stateLen (g : Grid) (l : List ((ℤ × ℤ) × Cell)) :
    (commitWrites g l).stateLen = g.stateLen := by
  induction l generalizing g with
  | nil => rfl
  | cons q rest ih => rw [commitWrites_cons, ih, setCell_stateLen]

theorem commitWrites_boundary (g : Grid) (l : List ((ℤ × ℤ) × Cell)) :
    (commitWrites g l).boundary = g.boundary := by
  induction l generalizing g with
  | nil => rfl
  | cons q rest ih => rw [commitWrites_cons, ih, setCell_boundary]

theorem commitWrites_cells_notmem (g : Grid) (l : List ((ℤ × ℤ) × Cell)) (x y : ℤ)
    (h : ∀ q ∈ l, q.1 ≠ (x, y)) :
    (commitWrites g l).cells y x = g.cells y x := by
  induction l generalizing g with
  | nil => rfl
  | cons q rest ih =>
      rw [commitWrites_cons, ih _ (fun q' hq' => h q' (List.mem_cons_of_mem q hq'))]
      refine setCell_cells_of_ne _ _ _ _ _ _ _ (fun hc => ?_)
      exact h q (List.mem_cons_self q rest) (Prod.ext hc.1.symm hc.2.symm)

theorem inRange_iff_not_guard (g : Grid) (x y : ℤ) :
    inRange g x y ↔ ¬(x < 0 ∨ (g.width : ℤ) ≤ x ∨ y < 0 ∨ (g.height : ℤ) ≤ y) := by
  unfold inRange; omega

theorem commitWrites_cells_mem (g : Grid) (l : List ((ℤ × ℤ) × Cell)) (x y : ℤ) (out : Cell)
    (hr : inRange g x y) (hmem : ((x, y), out) ∈ l) (hnd : (l.map Prod.fst).Nodup) :
    (commitWrites g l).cells y x = writeCell g.stateLen (g.cells y x) out := by
  induction l generalizing g with
  | nil => exact absurd hmem (List.not_mem_nil _)
  | cons q rest ih =>
      rw [List.map_cons, List.nodup_cons] at hnd
      rcases List.mem_cons.1 hmem with hq | hrest
      · subst hq
        rw [commitWrites_cons]
        have hnot : ∀ q' ∈ rest, q'.1 ≠ (x, y) := by
          intro q' hq' hc
          have hmm : q'.1 ∈ List.map Prod.fst rest := List.mem_map_of_mem Prod.fst hq'
          rw [hc] at hmm
          exact hnd.1 hmm
        rw [commitWrites_cells_notmem _ _ _ _ hnot]
        rw [setCell_cells_self _ _ _ _ _ hr]
        rfl
      · have hq1 : q.1 ≠ (x, y) := by
          intro hc
          have hmm : (x, y) ∈ List.map Prod.fst rest := List.mem_map_of_mem Prod.fst hrest
          rw [← hc] at hmm
          exact hnd.1 hmm
        rw [commitWrites_cons]
        have hr' : inRange (setCell g q.1.1 q.1.2 q.2.isOn (some q.2.stateVector)) x y := by
          unfold inRange at hr ⊢
          rw [setCell_width, setCell_height]
          exact hr
        have hih := ih (setCell g q.1.1 q.1.2 q.2.isOn (some q.2.stateVector)) hr' hrest hnd.2
        rw [setCell_stateLen, setCell_cells_of_ne _ _ _ _ _ _ _
          (fun hc => hq1 (Prod.ext hc.1.symm hc.2.symm))] at hih
        exact hih

theorem mem_rowMajorPositions (w h : ℕ) (p : ℤ × ℤ) :
    p ∈ rowMajorPositions w h ↔ 0 ≤ p.1 ∧ p.1 < (w : ℤ) ∧ 0 ≤ p.2 ∧ p.2 < (h : ℤ) := by
  unfold rowMajorPositions
  rw [List.mem_flatMap]
  constructor
  · rintro ⟨y, hy, hp⟩
    rw [List.mem_map] at hp
    obtain ⟨x, hx, rfl⟩ := hp
    rw [List.mem_range] at hy hx
    refine ⟨?_, ?_, ?_, ?_⟩ <;> simp <;> omega
  · rintro ⟨h1, h2, h3, h4⟩
    refine ⟨p.2.toNat, ?_, ?_⟩
    · rw [List.mem_range]; omega
    · rw [List.mem_map]
      refine ⟨p.1.toNat, ?_, ?_⟩
      · rw [List.mem_range]; omega
      · rw [Int.toNat_of_nonneg h1, Int.toNat_of_nonneg h3]

theorem nodup_rowMajorPositions (w h : ℕ) : (rowMajorPositions w h).Nodup := by
  unfold rowMajorPositions
  rw [List.nodup_flatMap]
  constructor
  · intro y _hy
    refine List.Nodup.map ?_ (List.nodup_range w)
    intro a b hab
    simpa using congrArg Prod.fst hab
  · refine List.Pairwise.imp ?_ (List.pairwise_lt_range h)
    intro a b hab p hpa hpb
    simp only [List.mem_map, List.mem_range] at hpa hpb
    obtain ⟨xa, _, rfl⟩ := hpa
    obtain ⟨xb, _, hb⟩ := hpb
    have := congrArg Prod.snd hb
    simp only at this
    omega

theorem zip_self_map {α β : Type} (l : List α) (h : α → β) :
    l.zip (l.map h) = l.map (fun a => (a, h a)) := by
  induction l with
  | nil => rfl
  | cons a t ih => simp [ih]

theorem updatePairs_eq (f : List ℚ → Cell) (g : Grid) :
    updatePairs f g = (rowMajorPositions g.width g.height).map
      (fun p => (p, f (getNeighborInput g p.1 p.2))) := by
  unfold updatePairs
  rw [List.map_map]
  exact zip_self_map _ _

theorem updatePairs_map_fst (f : List ℚ → Cell) (g : Grid) :
    (updatePairs f g).map Prod.fst = rowMajorPositions g.width g.height := by
  rw [updatePairs_eq, List.map_map]
  exact List.map_id _

theorem updateFn_width (f : List ℚ → Cell) (g : Grid) : (updateFn f g).width = g.width :=
  commitWrites_width g _

theorem updateFn_height (f : List ℚ → Cell) (g : Grid) : (updateFn f g).height = g.height :=
  commitWrites_height g _

theorem updateFn_stateLen (f : List ℚ → Cell) (g : Grid) :
    (updateFn f g).stateLen = g.stateLen :=
  commitWrites_stateLen g _

theorem updateFn_boundary (f : List ℚ → Cell) (g : Grid) :
    (updateFn f g).boundary = g.boundary :=
  commitWrites_boundary g _

/-- Pointwise characterization of update(): the new value of every in-range cell
is obtained from its pre-update value and the network output on its pre-update
neighborhood, independently of the iteration order. -/
theorem updateFn_cells_inRange (f : List ℚ → Cell) (g : Grid) (x y : ℤ)
    (h : inRange g x y) :
    (updateFn f g).cells y x =
      writeCell g.stateLen (g.cells y x) (f (getNeighborInput g x y)) := by
  unfold updateFn
  refine commitWrites_cells_mem g _ x y _ h ?_ ?_
  · rw [updatePairs_eq]
    exact List.mem_map_of_mem _ ((mem_rowMajorPositions _ _ (x, y)).mpr h)
  · rw [updatePairs_map_fst]
    exact nodup_rowMajorPositions _ _

theorem updateFn_cells_out (f : List ℚ → Cell) (g : Grid) (x y : ℤ)
    (h : ¬inRange g x y) :
    (updateFn f g).cells y x = g.cells y x := by
  unfold updateFn
  refine commitWrites_cells_notmem g _ x y ?_
  intro q hq hc
  have hfst : q.1 ∈ (updatePairs f g).map Prod.fst := List.mem_map_of_mem Prod.fst hq
  rw [updatePairs_map_fst, hc, mem_rowMajorPositions] at hfst
  exact h hfst

theorem getCell_torus (g : Grid) (hb : g.boundary = .torus) (x y : ℤ) :
    getCell g x y = g.cells (wrapCoord y g.height) (wrapCoord x g.width) := by
  unfold getCell
  rw [hb]

theorem getCell_wrap (g : Grid) (hb : g.boundary = .torus) (hw : 0 < g.width)
    (hh : 0 < g.height) (x y : ℤ) :
    getCell g (wrapCoord x g.width) (wrapCoord y g.height) = getCell g x y := by
  rw [getCell_torus g hb, getCell_torus g hb, wrapCoord_idem _ _ hw, wrapCoord_idem _ _ hh]

theorem getNeighborInput_wrap (g : Grid) (hb : g.boundary = .torus) (hw : 0 < g.width)
    (hh : 0 < g.height) (x y : ℤ) :
    getNeighborInput g (wrapCoord x g.width) (wrapCoord y g.height) =
      getNeighborInput g x y := by
  have hsub : ∀ z : ℤ, ∀ k : ℕ, 0 < k → wrapCoord (wrapCoord z k - 1) k = wrapCoord (z - 1) k := by
    intro z k hk
    rw [sub_eq_add_neg, wrapCoord_add _ _ _ hk, ← sub_eq_add_neg]
  have hadd : ∀ z : ℤ, ∀ k : ℕ, 0 < k → wrapCoord (wrapCoord z k + 1) k = wrapCoord (z + 1) k := by
    intro z k hk
    rw [wrapCoord_add _ _ _ hk]
  unfold getNeighborInput getNeighbors
  rw [getCell_torus g hb (wrapCoord x g.width) (wrapCoord y g.height - 1),
    getCell_torus g hb x (y - 1),
    getCell_torus g hb (wrapCoord x g.width) (wrapCoord y g.height + 1),
    getCell_torus g hb x (y + 1),
    getCell_torus g hb (wrapCoord x g.width - 1) (wrapCoord y g.height),
    getCell_torus g hb (x - 1) y,
    getCell_torus g hb (wrapCoord x g.width + 1) (wrapCoord y g.height),
    getCell_torus g hb (x + 1) y,
    getCell_wrap g hb hw hh x y,
    hsub y g.height hh, hadd y g.height hh, hsub x g.width hw, hadd x g.width hw,
    wrapCoord_idem x g.width hw, wrapCoord_idem y g.height hh]

/-- getCell view of one update() step on a torus grid: every cell (wrapped or not)
shows writeCell of its pre-update value and the network output on its pre-update
neighborhood. -/
theorem getCell_updateFn_torus (f : List ℚ → Cell) (g : Grid) (hb : g.boundary = .torus)
    (hw : 0 < g.width) (hh : 0 < g.height) (x y : ℤ) :
    getCell (updateFn f g) x y =
      writeCell g.stateLen (getCell g x y) (f (getNeighborInput g x y)) := by
  have hb' : (updateFn f g).boundary = .torus := by rw [updateFn_boundary, hb]
  rw [getCell_torus _ hb', updateFn_width, updateFn_height]
  have hxr : inRange g (wrapCoord x g.width) (wrapCoord y g.height) := by
    obtain ⟨a1, a2⟩ := wrapCoord_mem_range x g.width hw
    obtain ⟨b1, b2⟩ := wrapCoord_mem_range y g.height hh
    exact ⟨a1, a2, b1, b2⟩
  rw [updateFn_cells_inRange f g _ _ hxr, getNeighborInput_wrap g hb hw hh,
    ← getCell_torus g hb]

/-- getCell view of one update() step on a padding grid: in-range cells show the
committed network output, out-of-range reads still see the synthetic boundary
cell. -/
theorem getCell_updateFn_padding (f : List ℚ → Cell) (g : Grid)
    (hb : g.boundary = .padding) (x y : ℤ) :
    getCell (updateFn f g) x y =
      if inRange g x y then
        writeCell g.stateLen (getCell g x y) (f (getNeighborInput g x y))
      else { isOn := false, stateVector := zeros g.stateLen } := by
  have hb' : (updateFn f g).boundary = .padding := by rw [updateFn_boundary, hb]
  unfold getCell
  rw [hb, hb', updateFn_width, updateFn_height, updateFn_stateLen]
  by_cases h : inRange g x y
  · rw [if_pos h, if_neg ((inRange_iff_not_guard g x y).mp h),
      if_neg ((inRange_iff_not_guard g x y).mp h), updateFn_cells_inRange f g x y h]
  · rw [if_neg h, if_pos (by rw [inRange_iff_not_guard, not_not] at h; exact h)]

theorem grid_eq {g1 g2 : Grid} (hw : g1.width = g2.width) (hh : g1.height = g2.height)
    (hk : g1.stateLen = g2.stateLen) (hb : g1.boundary = g2.boundary)
    (hc : ∀ y x : ℤ, g1.cells y x = g2.cells y x) : g1 = g2 := by
  cases g1; cases g2
  simp only at hw hh hk hb hc
  subst hw; subst hh; subst hk; subst hb
  congr 1
  funext y x
  exact hc y x

theorem getCell_inRange (g : Grid) (x y : ℤ) (h : inRange g x y) :
    getCell g x y = g.cells y x := by
  obtain ⟨h1, h2, h3, h4⟩ := h
  unfold getCell
  match hb : g.boundary with
  | .torus => rw [wrapCoord_of_inRange h1 h2, wrapCoord_of_inRange h3 h4]
  | .padding => rw [if_neg (by omega)]

/-- Committing the computed (position, newState) pairs in any order whatsoever
produces the same grid as the row-major commit of update(). -/
theorem commitWrites_perm (f : List ℚ → Cell) (g : Grid) (l : List ((ℤ × ℤ) × Cell))
    (hperm : l.Perm (updatePairs f g)) :
    commitWrites g l = updateFn f g := by
  have hnd : (l.map Prod.fst).Nodup := by
    have h2 : (l.map Prod.fst).Perm (rowMajorPositions g.width g.height) := by
      have h3 := hperm.map Prod.fst
      rwa [updatePairs_map_fst] at h3
    exact h2.symm.nodup (nodup_rowMajorPositions _ _)
  refine grid_eq ?_ ?_ ?_ ?_ ?_
  · rw [commitWrites_width, updateFn_width]
  · rw [commitWrites_height, updateFn_height]
  · rw [commitWrites_stateLen, updateFn_stateLen]
  · rw [commitWrites_boundary, updateFn_boundary]
  · intro y x
    by_cases hr : inRange g x y
    · rw [updateFn_cells_inRange f g x y hr]
      refine commitWrites_cells_mem g l x y _ hr ?_ hnd
      refine (hperm.mem_iff).2 ?_
      rw [updatePairs_eq]
      exact List.mem_map_of_mem _ ((mem_rowMajorPositions _ _ (x, y)).mpr hr)
    · rw [updateFn_cells_out f g x y hr]
      refine commitWrites_cells_notmem g l x y ?_
      intro q hq hc
      have hfst : q.1 ∈ (updatePairs f g).map Prod.fst :=
        List.mem_map_of_mem Prod.fst (hperm.subset hq)
      rw [updatePairs_map_fst, hc, mem_rowMajorPositions] at hfst
      exact hr hfst

/-- C1: a single CellularAutomata.update() on an initialized network performs the
two-phase compute-then-commit: it succeeds, every in-range cell's new value is
writeCell of its pre-update value and the network output on its pre-update
neighborhood (so no cell sees a neighbor's post-update state), and committing
the computed outputs along any permutation of the row-major cell order yields
the identical grid. -/
theorem claim1_update_two_phase (net : Network) (g : Grid)
    (hinit : net.isInitialized = true) :
    caUpdate net g = .ok (updateFn net.f g)
    ∧ (∀ x y : ℤ, inRange g x y →
        (updateFn net.f g).cells y x =
          writeCell g.stateLen (g.cells y x) (net.f (getNeighborInput g x y)))
    ∧ (∀ l : List ((ℤ × ℤ) × Cell), l.Perm (updatePairs net.f g) →
        commitWrites g l = updateFn net.f g) := by
  refine ⟨?_, ?_, ?_⟩
  · unfold caUpdate
    rw [if_pos hinit]
  · intro x y hr
    exact updateFn_cells_inRange net.f g x y hr
  · intro l hperm
    exact commitWrites_perm net.f g l hperm


/-- Neighborhood positions in the fixed contract order: index 0 top, 1 bottom,
2 left, 3 right, 4 self. -/
def nbrPos (x y : ℤ) : ℕ → ℤ × ℤ
  | 0 => (x, y - 1)
  | 1 => (x, y + 1)
  | 2 => (x - 1, y)
  | 3 => (x + 1, y)
  | _ => (x, y)

theorem cellVec_length (k : ℕ) (c : Cell) : (cellVec k c).length = 1 + k := by
  simp [cellVec, Nat.add_comm]

theorem flatten_take_blocks (n : ℕ) :
    ∀ (bs : List (List ℚ)) (i : ℕ), (∀ b ∈ bs, b.length = n) →
      bs.flatten.take (i * n) = (bs.take i).flatten := by
  intro bs
  induction bs with
  | nil => intro i _; simp
  | cons b rest ih =>
      intro i hlen
      match i with
      | 0 => simp
      | i' + 1 =>
          rw [List.flatten_cons, List.take_append_eq_append_take,
            List.take_of_length_le (by rw [hlen b (List.mem_cons_self b rest)]; nlinarith),
            hlen b (List.mem_cons_self b rest),
            show (i' + 1) * n - n = i' * n by ring_nf; omega,
            ih i' (fun b' hb' => hlen b' (List.mem_cons_of_mem b hb')),
            List.take_succ_cons, List.flatten_cons]

theorem flatten_drop_blocks (n : ℕ) :
    ∀ (bs : List (List ℚ)) (i : ℕ), (∀ b ∈ bs, b.length = n) →
      bs.flatten.drop (i * n) = (bs.drop i).flatten := by
  intro bs
  induction bs with
  | nil => intro i _; simp
  | cons b rest ih =>
      intro i hlen
      match i with
      | 0 => simp
      | i' + 1 =>
          rw [List.flatten_cons, List.drop_append_eq_append_drop,
            List.drop_eq_nil_of_le (by rw [hlen b (List.mem_cons_self b rest)]; nlinarith),
            hlen b (List.mem_cons_self b rest),
            show (i' + 1) * n - n = i' * n by ring_nf; omega,
            ih i' (fun b' hb' => hlen b' (List.mem_cons_of_mem b hb')),
            List.drop_succ_cons, List.nil_append]

/-- C2: getNeighborInput is the concatenation of [on, state..] blocks for the five
neighborhood cells in the fixed order top, bottom, left, right, self; and a grid
change confined to one neighbor position changes only that neighbor's
(1+K)-wide slice of the output vector. -/
theorem claim2_neighbor_input_order (g g' : Grid) (x y : ℤ) :
    getNeighborInput g x y =
      cellVec g.stateLen (getCell g x (y - 1)) ++ cellVec g.stateLen (getCell g x (y + 1)) ++
        cellVec g.stateLen (getCell g (x - 1) y) ++ cellVec g.stateLen (getCell g (x + 1) y) ++
        cellVec g.stateLen (getCell g x y)
    ∧ (g.stateLen = g'.stateLen →
        ∀ i : ℕ, i < 5 →
          (∀ j : ℕ, j < 5 → j ≠ i →
            getCell g (nbrPos x y j).1 (nbrPos x y j).2 =
              getCell g' (nbrPos x y j).1 (nbrPos x y j).2) →
          (getNeighborInput g x y).take (i * (1 + g.stateLen)) =
              (getNeighborInput g' x y).take (i * (1 + g.stateLen))
            ∧ (getNeighborInput g x y).drop ((i + 1) * (1 + g.stateLen)) =
              (getNeighborInput g' x y).drop ((i + 1) * (1 + g.stateLen))) := by
  have hfl : ∀ gg : Grid, getNeighborInput gg x y =
      [cellVec gg.stateLen (getCell gg (nbrPos x y 0).1 (nbrPos x y 0).2),
        cellVec gg.stateLen (getCell gg (nbrPos x y 1).1 (nbrPos x y 1).2),
        cellVec gg.stateLen (getCell gg (nbrPos x y 2).1 (nbrPos x y 2).2),
        cellVec gg.stateLen (getCell gg (nbrPos x y 3).1 (nbrPos x y 3).2),
        cellVec gg.stateLen (getCell gg (nbrPos x y 4).1 (nbrPos x y 4).2)].flatten := by
    intro gg
    rfl
  constructor
  · rw [hfl g]
    simp [nbrPos, List.append_assoc]
  · intro hK i hi hEq
    have hBC : ∀ j : ℕ, j < 5 → j ≠ i →
        cellVec g.stateLen (getCell g (nbrPos x y j).1 (nbrPos x y j).2) =
          cellVec g'.stateLen (getCell g' (nbrPos x y j).1 (nbrPos x y j).2) := by
      intro j h1 h2
      rw [hK, hEq j h1 h2]
    have hlenB : ∀ b ∈ [cellVec g.stateLen (getCell g (nbrPos x y 0).1 (nbrPos x y 0).2),
        cellVec g.stateLen (getCell g (nbrPos x y 1).1 (nbrPos x y 1).2),
        cellVec g.stateLen (getCell g (nbrPos x y 2).1 (nbrPos x y 2).2),
        cellVec g.stateLen (getCell g (nbrPos x y 3).1 (nbrPos x y 3).2),
        cellVec g.stateLen (getCell g (nbrPos x y 4).1 (nbrPos x y 4).2)],
        b.length = 1 + g.stateLen := by
      intro b hb
      simp only [List.mem_cons, List.not_mem_nil, or_false] at hb
      rcases hb with rfl | rfl | rfl | rfl | rfl <;> exact cellVec_length _ _
    have hlenC : ∀ b ∈ [cellVec g'.stateLen (getCell g' (nbrPos x y 0).1 (nbrPos x y 0).2),
        cellVec g'.stateLen (getCell g' (nbrPos x y 1).1 (nbrPos x y 1).2),
        cellVec g'.stateLen (getCell g' (nbrPos x y 2).1 (nbrPos x y 2).2),
        cellVec g'.stateLen (getCell g' (nbrPos x y 3).1 (nbrPos x y 3).2),
        cellVec g'.stateLen (getCell g' (nbrPos x y 4).1 (nbrPos x y 4).2)],
        b.length = 1 + g.stateLen := by
      intro b hb
      simp only [List.mem_cons, List.not_mem_nil, or_false] at hb
      rcases hb with rfl | rfl | rfl | rfl | rfl <;>
        rw [cellVec_length, hK]
    constructor
    · rw [hfl g, hfl g', flatten_take_blocks (1 + g.stateLen) _ i hlenB,
        flatten_take_blocks (1 + g.stateLen) _ i hlenC]
      interval_cases i <;> simp only [List.take] <;>
        simp only [List.flatten] <;>
        first
          | rw [hBC 0 (by omega) (by omega), hBC 1 (by omega) (by omega),
              hBC 2 (by omega) (by omega), hBC 3 (by omega) (by omega)]
          | rw [hBC 0 (by omega) (by omega), hBC 1 (by omega) (by omega),
              hBC 2 (by omega) (by omega)]
          | rw [hBC 0 (by omega) (by omega), hBC 1 (by omega) (by omega)]
          | rw [hBC 0 (by omega) (by omega)]
          | rfl
    · rw [hfl g, hfl g', flatten_drop_blocks (1 + g.stateLen) _ (i + 1) hlenB,
        flatten_drop_blocks (1 + g.stateLen) _ (i + 1) hlenC]
      interval_cases i <;> simp only [List.drop] <;>
        simp only [List.flatten] <;>
        first
          | rw [hBC 1 (by omega) (by omega), hBC 2 (by omega) (by omega),
              hBC 3 (by omega) (by omega), hBC 4 (by omega) (by omega)]
          | rw [hBC 2 (by omega) (by omega), hBC 3 (by omega) (by omega),
              hBC 4 (by omega) (by omega)]
          | rw [hBC 3 (by omega) (by omega), hBC 4 (by omega) (by omega)]
          | rw [hBC 4 (by omega) (by omega)]
          | rfl

/-- Concrete 3x3 torus test grid (K = 2) with one interior live cell. -/
def torusGrid3 : Grid :=
  { width := 3, height := 3, stateLen := 2, boundary := .torus
    cells := fun y x =>
      if y = 1 ∧ x = 1 then { isOn := true, stateVector := [1/2, -1/3] }
      else { isOn := false, stateVector := [0, 0] } }

/-- Variant of torusGrid3 whose only difference is the cell at (1,0), the top
neighbor of (1,1). -/
def torusGrid3b : Grid :=
  { width := 3, height := 3, stateLen := 2, boundary := .torus
    cells := fun y x =>
      if y = 1 ∧ x = 1 then { isOn := true, stateVector := [1/2, -1/3] }
      else if y = 0 ∧ x = 1 then { isOn := true, stateVector := [1, 1] }
      else { isOn := false, stateVector := [0, 0] } }

/-- Concrete 3x3 zero-padding test grid (K = 5), all cells off. -/
def padGrid3 : Grid :=
  { width := 3, height := 3, stateLen := 5, boundary := .padding
    cells := fun _ _ => { isOn := false, stateVector := [0, 0, 0, 0, 0] } }

/-- Concrete initialized network: fires when the neighborhood input sums to at
least 1, and emits a length-2 state vector. -/
def netSum : Network :=
  { isInitialized := true
    f := fun v => { isOn := decide (1 ≤ v.sum), stateVector := [v.sum, 0] } }

/-- Witness for C1 at a concrete grid, network, cell and commit order. -/
theorem claim1_update_two_phase_witness :
    netSum.isInitialized = true
    ∧ (updateFn netSum.f torusGrid3).cells 1 1 =
        writeCell torusGrid3.stateLen (torusGrid3.cells 1 1)
          (netSum.f (getNeighborInput torusGrid3 1 1))
    ∧ commitWrites torusGrid3 (updatePairs netSum.f torusGrid3).reverse =
        updateFn netSum.f torusGrid3 :=
  ⟨rfl,
    (claim1_update_two_phase netSum torusGrid3 rfl).2.1 1 1 (by decide),
    (claim1_update_two_phase netSum torusGrid3 rfl).2.2 _
      ((updatePairs netSum.f torusGrid3).reverse_perm)⟩

/-- Witness for C2 at two concrete grids differing only at the top neighbor of
cell (1,1): the trailing four blocks of the input vector agree. -/
theorem claim2_neighbor_input_order_witness :
    torusGrid3.stateLen = torusGrid3b.stateLen
    ∧ (getNeighborInput torusGrid3 1 1).drop ((0 + 1) * (1 + torusGrid3.stateLen)) =
        (getNeighborInput torusGrid3b 1 1).drop ((0 + 1) * (1 + torusGrid3.stateLen)) :=
  ⟨rfl,
    ((claim2_neighbor_input_order torusGrid3 torusGrid3b 1 1).2 rfl 0 (by omega)
      (by
        intro j h1 h2
        interval_cases j
        · exact absurd rfl h2
        · rfl
        · rfl
        · rfl
        · rfl)).2⟩

/-- C3: boundary policy of getCell. On a torus grid, coordinate -1 reads the
opposite edge (column width-1, row height-1); on a padding grid, every
out-of-range read returns the synthetic off cell with an all-zero state
vector. -/
theorem claim3_boundary_policy (g : Grid) :
    (g.boundary = .torus → 0 < g.width → 0 < g.height →
      (∀ y : ℤ, getCell g (-1) y = getCell g ((g.width : ℤ) - 1) y)
      ∧ (∀ x : ℤ, getCell g x (-1) = getCell g x ((g.height : ℤ) - 1)))
    ∧ (g.boundary = .padding → ∀ x y : ℤ, ¬inRange g x y →
        getCell g x y = { isOn := false, stateVector := zeros g.stateLen }) := by
  have hwrap : ∀ k : ℕ, 0 < k → wrapCoord (-1) k = wrapCoord ((k : ℤ) - 1) k := by
    intro k hk
    rw [wrapCoord_eq_emod _ _ hk, wrapCoord_eq_emod _ _ hk,
      show (k : ℤ) - 1 = -1 + (k : ℤ) * 1 by ring, Int.add_mul_emod_self_left]
  constructor
  · intro hb hw hh
    constructor
    · intro y
      rw [getCell_torus g hb, getCell_torus g hb, hwrap g.width hw]
    · intro x
      rw [getCell_torus g hb, getCell_torus g hb, hwrap g.height hh]
  · intro hb x y h
    unfold getCell
    rw [hb]
    unfold inRange at h
    rw [if_pos (by omega)]

/-- Witness for C3 on concrete torus and padding grids. -/
theorem claim3_boundary_policy_witness :
    getCell torusGrid3 (-1) 5 = getCell torusGrid3 ((torusGrid3.width : ℤ) - 1) 5
    ∧ getCell padGrid3 (-1) 0 = { isOn := false, stateVector := zeros padGrid3.stateLen } :=
  ⟨((claim3_boundary_policy torusGrid3).1 rfl (by decide) (by decide)).1 5,
    (claim3_boundary_policy padGrid3).2 rfl (-1) 0 (by decide)⟩

/-- C10: setCell contract. Out-of-range writes are silent no-ops on the whole
grid; in-range writes always set the on flag, overwrite the state vector only
when a vector of exactly the expected length is supplied (null or wrong-length
vectors leave it untouched), and never touch any other cell. -/
theorem claim10_setCell_contract (g : Grid) (x y : ℤ) (o : Bool) (sv : Option (List ℚ)) :
    (¬inRange g x y → setCell g x y o sv = g)
    ∧ (inRange g x y →
        ((setCell g x y o sv).cells y x).isOn = o
        ∧ (∀ v : List ℚ, sv = some v → v.length = g.stateLen →
            ((setCell g x y o sv).cells y x).stateVector = v)
        ∧ ((sv = none ∨ ∃ v, sv = some v ∧ v.length ≠ g.stateLen) →
            ((setCell g x y o sv).cells y x).stateVector = (g.cells y x).stateVector))
    ∧ (∀ x' y' : ℤ, ¬(x' = x ∧ y' = y) →
        (setCell g x y o sv).cells y' x' = g.cells y' x') := by
  refine ⟨?_, ?_, ?_⟩
  · intro h
    unfold inRange at h
    unfold setCell
    rw [if_pos (by omega)]
  · intro h
    have hg : ¬(x < 0 ∨ (g.width : ℤ) ≤ x ∨ y < 0 ∨ (g.height : ℤ) ≤ y) := by
      unfold inRange at h; omega
    refine ⟨?_, ?_, ?_⟩
    · unfold setCell
      rw [if_neg hg]
      simp
    · intro v hv hlen
      subst hv
      unfold setCell
      rw [if_neg hg]
      simp [hlen]
    · intro hbad
      rcases hbad with hnone | ⟨v, hv, hlen⟩
      · subst hnone
        unfold setCell
        rw [if_neg hg]
        simp
      · subst hv
        unfold setCell
        rw [if_neg hg]
        simp [hlen]
  · intro x' y' hne
    exact setCell_cells_of_ne g x y o sv x' y' hne

/-- Witness for C10 on a concrete padding grid: an out-of-range no-op, an
in-range write with a wrong-length vector, and an untouched other cell. -/
theorem claim10_setCell_contract_witness :
    setCell padGrid3 3 0 true none = padGrid3
    ∧ ((setCell padGrid3 1 1 true (some [7])).cells 1 1).isOn = true
    ∧ ((setCell padGrid3 1 1 true (some [7])).cells 1 1).stateVector =
        (padGrid3.cells 1 1).stateVector
    ∧ (setCell padGrid3 1 1 true (some [7])).cells 0 0 = padGrid3.cells 0 0 :=
  ⟨(claim10_setCell_contract padGrid3 3 0 true none).1 (by decide),
    ((claim10_setCell_contract padGrid3 1 1 true (some [7])).2.1 (by decide)).1,
    ((claim10_setCell_contract padGrid3 1 1 true (some [7])).2.1 (by decide)).2.2
      (Or.inr ⟨[7], rfl, by decide⟩),
    (claim10_setCell_contract padGrid3 1 1 true (some [7])).2.2 0 0 (by decide)⟩

/-- Loss window x-offset used by GeneticAlgorithm._computeLoss / Trainer.computeLoss /
Game.calculateError: Math.floor(width/2) - 2. -/
def lossCenterX (g : Grid) : ℤ := ((g.width / 2 : ℕ) : ℤ) - 2

/-- Loss window y-offset: Math.floor(height/2) - 2. -/
def lossCenterY (g : Grid) : ℤ := ((g.height / 2 : ℕ) : ℤ) - 2

/-- Per-cell squared error of the loss loop: (targetValue - actualValue)^2 with
targetValue and actualValue the 0/1 encodings of the target bit and the cell's
on flag. -/
def lossTerm (g : Grid) (target : List (List Bool)) (ty tx : ℕ) : ℚ :=
  let cell := getCell g (lossCenterX g + tx) (lossCenterY g + ty)
  let targetValue : ℚ := if (target.getD ty []).getD tx false then 1 else 0
  let actualValue : ℚ := if cell.isOn then 1 else 0
  (targetValue - actualValue) * (targetValue - actualValue)

/-- Body of _computeLoss after the shape guard: total squared error over the 5x5
window divided by the cell count 25 (the loop counts exactly 5*5 cells). -/
def mseLoss (g : Grid) (target : List (List Bool)) : ℚ :=
  (((List.range 5).map (fun ty => ((List.range 5).map (fun tx => lossTerm g target ty tx)).sum)).sum) / 25

/-- GeneticAlgorithm._computeLoss (lines 136-165): throws unless the target is a
5x5 array, then averages the squared on/off error over the centered 5x5
window. The same code appears in Trainer.computeLoss (lines 475-505).
Game.calculateError shares the window loop but adds an empty-target early
return; it is embedded separately below as calculateError. -/
def computeLoss (g : Grid) (target : List (List Bool)) : Except String ℚ :=
  if target.length = 5 ∧ (target.getD 0 []).length = 5 then .ok (mseLoss g target)
  else .error "Target shape must be a 5x5 boolean array"

/-- The hasTarget scan of Game.calculateError (part_003 lines 60-69): does any
of the 25 target entries hold an on pixel. -/
def hasTargetPixel (target : List (List Bool)) : Bool :=
  (List.range 5).any (fun ty => (List.range 5).any (fun tx => (target.getD ty []).getD tx false))

/-- Game.calculateError (src/unnamed/part_003 lines 54-113): same 5x5 shape
guard and same centered-window MSE loop as _computeLoss, but with an early
return first: if the target has no on pixel at all, it displays a dash and
returns 0 without reading the grid. -/
def calculateError (g : Grid) (target : List (List Bool)) : Except String ℚ :=
  if target.length = 5 ∧ (target.getD 0 []).length = 5 then
    if hasTargetPixel target then .ok (mseLoss g target) else .ok 0
  else .error "Target shape must be a 5x5 boolean array"

theorem sum_eq_zero_iff_of_nonneg {l : List ℚ} (h : ∀ q ∈ l, 0 ≤ q) :
    l.sum = 0 ↔ ∀ q ∈ l, q = 0 := by
  induction l with
  | nil => simp
  | cons a t ih =>
      have ha := h a (List.mem_cons_self a t)
      have ht : ∀ q ∈ t, 0 ≤ q := fun q hq => h q (List.mem_cons_of_mem a hq)
      have hts : 0 ≤ t.sum := List.sum_nonneg ht
      rw [List.sum_cons]
      constructor
      · intro h0
        have ha0 : a = 0 := by linarith
        have hts0 : t.sum = 0 := by linarith
        intro q hq
        rcases List.mem_cons.1 hq with rfl | hqt
        · exact ha0
        · exact ((ih ht).mp hts0) q hqt
      · intro hall
        rw [hall a (List.mem_cons_self a t),
          (ih ht).mpr (fun q hq => hall q (List.mem_cons_of_mem a hq))]
        ring

theorem lossTerm_nonneg (g : Grid) (target : List (List Bool)) (ty tx : ℕ) :
    0 ≤ lossTerm g target ty tx :=
  mul_self_nonneg _

theorem lossTerm_le_one (g : Grid) (target : List (List Bool)) (ty tx : ℕ) :
    lossTerm g target ty tx ≤ 1 := by
  unfold lossTerm
  cases ht : (target.getD ty []).getD tx false <;>
    cases hc : (getCell g (lossCenterX g + tx) (lossCenterY g + ty)).isOn <;>
    simp [ht, hc] <;> norm_num

theorem lossTerm_eq_zero_iff (g : Grid) (target : List (List Bool)) (ty tx : ℕ) :
    lossTerm g target ty tx = 0 ↔
      (getCell g (lossCenterX g + tx) (lossCenterY g + ty)).isOn =
        (target.getD ty []).getD tx false := by
  unfold lossTerm
  cases ht : (target.getD ty []).getD tx false <;>
    cases hc : (getCell g (lossCenterX g + tx) (lossCenterY g + ty)).isOn <;>
    simp [ht, hc]

theorem mseLoss_nonneg (g : Grid) (target : List (List Bool)) : 0 ≤ mseLoss g target := by
  unfold mseLoss
  refine div_nonneg ?_ (by norm_num)
  refine List.sum_nonneg ?_
  intro q hq
  simp only [List.mem_map, List.mem_range] at hq
  obtain ⟨ty, _, rfl⟩ := hq
  refine List.sum_nonneg ?_
  intro r hr
  simp only [List.mem_map, List.mem_range] at hr
  obtain ⟨tx, _, rfl⟩ := hr
  exact lossTerm_nonneg g target ty tx

theorem mseLoss_le_one (g : Grid) (target : List (List Bool)) : mseLoss g target ≤ 1 := by
  unfold mseLoss
  rw [div_le_one (by norm_num)]
  have houter : ∀ q ∈ (List.range 5).map
      (fun ty => ((List.range 5).map (fun tx => lossTerm g target ty tx)).sum), q ≤ 5 := by
    intro q hq
    simp only [List.mem_map, List.mem_range] at hq
    obtain ⟨ty, _, rfl⟩ := hq
    have h5 := List.sum_le_card_nsmul ((List.range 5).map (fun tx => lossTerm g target ty tx)) 1
      (by
        intro x hx
        simp only [List.mem_map, List.mem_range] at hx
        obtain ⟨tx, _, rfl⟩ := hx
        exact lossTerm_le_one g target ty tx)
    simpa [nsmul_eq_mul] using h5
  have h25 := List.sum_le_card_nsmul ((List.range 5).map
      (fun ty => ((List.range 5).map (fun tx => lossTerm g target ty tx)).sum)) 5 houter
  have : (5 : ℚ) * 5 = 25 := by norm_num
  calc (List.map (fun ty => ((List.range 5).map (fun tx => lossTerm g target ty tx)).sum)
      (List.range 5)).sum ≤ 5 * 5 := by simpa [nsmul_eq_mul] using h25
    _ = 25 := by norm_num

theorem mseLoss_eq_zero_iff (g : Grid) (target : List (List Bool)) :
    mseLoss g target = 0 ↔ ∀ ty tx : ℕ, ty < 5 → tx < 5 →
      (getCell g (lossCenterX g + tx) (lossCenterY g + ty)).isOn =
        (target.getD ty []).getD tx false := by
  unfold mseLoss
  rw [div_eq_zero_iff]
  have hinner : ∀ ty : ℕ, ∀ q ∈ (List.range 5).map (fun tx => lossTerm g target ty tx), 0 ≤ q := by
    intro ty q hq
    simp only [List.mem_map, List.mem_range] at hq
    obtain ⟨tx, _, rfl⟩ := hq
    exact lossTerm_nonneg g target ty tx
  have houter : ∀ q ∈ (List.range 5).map
      (fun ty => ((List.range 5).map (fun tx => lossTerm g target ty tx)).sum), 0 ≤ q := by
    intro q hq
    simp only [List.mem_map, List.mem_range] at hq
    obtain ⟨ty, _, rfl⟩ := hq
    exact List.sum_nonneg (hinner ty)
  constructor
  · intro h
    rcases h with h | h
    · intro ty tx hty htx
      have h1 := (sum_eq_zero_iff_of_nonneg houter).mp h
      have h2 : ((List.range 5).map (fun tx => lossTerm g target ty tx)).sum = 0 :=
        h1 _ (List.mem_map_of_mem _ (List.mem_range.mpr hty))
      have h3 := (sum_eq_zero_iff_of_nonneg (hinner ty)).mp h2
      have h4 : lossTerm g target ty tx = 0 :=
        h3 _ (List.mem_map_of_mem _ (List.mem_range.mpr htx))
      exact (lossTerm_eq_zero_iff g target ty tx).mp h4
    · exact absurd h (by norm_num)
  · intro h
    left
    refine (sum_eq_zero_iff_of_nonneg houter).mpr ?_
    intro q hq
    simp only [List.mem_map, List.mem_range] at hq
    obtain ⟨ty, hty, rfl⟩ := hq
    refine (sum_eq_zero_iff_of_nonneg (hinner ty)).mpr ?_
    intro r hr
    simp only [List.mem_map, List.mem_range] at hr
    obtain ⟨tx, htx, rfl⟩ := hr
    exact (lossTerm_eq_zero_iff g target ty tx).mpr (h ty tx hty htx)

/-- All-off 5x5 target shape. -/
def targetFalse5 : List (List Bool) := List.replicate 5 (List.replicate 5 false)

/-- All-off 3x3 torus grid (K = 2). -/
def offTorus3 : Grid :=
  { width := 3, height := 3, stateLen := 2, boundary := .torus
    cells := fun _ _ => { isOn := false, stateVector := [0, 0] } }

theorem computeLoss_padGrid3_eval : computeLoss padGrid3 targetFalse5 = .ok 0 := by
  unfold computeLoss
  rw [if_pos (by decide)]
  have : mseLoss padGrid3 targetFalse5 = 0 := by
    simp [mseLoss, lossTerm, List.range_succ, targetFalse5, getCell, padGrid3,
      lossCenterX, lossCenterY]
  rw [this]

theorem mseLoss_window_congr (g g' : Grid) (target : List (List Bool))
    (hw : g.width = g'.width) (hh : g.height = g'.height)
    (hcells : ∀ ty tx : ℕ, ty < 5 → tx < 5 →
      (getCell g (lossCenterX g + tx) (lossCenterY g + ty)).isOn =
        (getCell g' (lossCenterX g' + tx) (lossCenterY g' + ty)).isOn) :
    mseLoss g target = mseLoss g' target := by
  unfold mseLoss
  have houter : (List.range 5).map
        (fun ty => ((List.range 5).map (fun tx => lossTerm g target ty tx)).sum) =
      (List.range 5).map
        (fun ty => ((List.range 5).map (fun tx => lossTerm g' target ty tx)).sum) := by
    refine List.map_congr_left ?_
    intro ty hty
    refine congrArg List.sum ?_
    refine List.map_congr_left ?_
    intro tx htx
    rw [List.mem_range] at hty htx
    simp only [lossTerm]
    rw [hcells ty tx hty htx]
  rw [houter]

theorem computeLoss_window_congr (g g' : Grid) (target : List (List Bool))
    (hw : g.width = g'.width) (hh : g.height = g'.height)
    (hcells : ∀ ty tx : ℕ, ty < 5 → tx < 5 →
      (getCell g (lossCenterX g + tx) (lossCenterY g + ty)).isOn =
        (getCell g' (lossCenterX g' + tx) (lossCenterY g' + ty)).isOn) :
    computeLoss g target = computeLoss g' target := by
  unfold computeLoss
  rw [mseLoss_window_congr g g' target hw hh hcells]

/-- C6 counterexample: a 5x5 target on a 3x3 grid makes the comparison window
(offset floor(3/2)-2 = -1) exceed the grid's bounds, yet _computeLoss raises no
error at all: it returns an ordinary loss value, reading the out-of-range cells
through getCell's boundary policy. -/
theorem claim6_window_counterexample :
    padGrid3.width < 5 ∧ lossCenterX padGrid3 < 0
    ∧ computeLoss padGrid3 targetFalse5 = .ok 0 :=
  ⟨by decide, by decide, computeLoss_padGrid3_eval⟩

/-- C6 (amended): the loss window sits at offset floor(gridDim/2) - floor(5/2) on
each axis and the window cells alone determine the result; _computeLoss fails
exactly when the target is not a 5x5 array, and never checks the window against
the grid's bounds. -/
theorem claim6_loss_window_amended (g g' : Grid) (target : List (List Bool)) :
    ((∃ e, computeLoss g target = .error e) ↔
      ¬(target.length = 5 ∧ (target.getD 0 []).length = 5))
    ∧ (lossCenterX g = ((g.width / 2 : ℕ) : ℤ) - ((5 / 2 : ℕ) : ℤ)
        ∧ lossCenterY g = ((g.height / 2 : ℕ) : ℤ) - ((5 / 2 : ℕ) : ℤ))
    ∧ (g.width = g'.width → g.height = g'.height →
        (∀ ty tx : ℕ, ty < 5 → tx < 5 →
          (getCell g (lossCenterX g + tx) (lossCenterY g + ty)).isOn =
            (getCell g' (lossCenterX g' + tx) (lossCenterY g' + ty)).isOn) →
        computeLoss g target = computeLoss g' target) := by
  refine ⟨?_, ⟨rfl, rfl⟩, ?_⟩
  · unfold computeLoss
    by_cases hc : target.length = 5 ∧ (target.getD 0 []).length = 5
    · rw [if_pos hc]
      constructor
      · rintro ⟨e, he⟩
        exact absurd he (by simp)
      · intro hno
        exact absurd hc hno
    · rw [if_neg hc]
      constructor
      · intro _
        exact hc
      · intro _
        exact ⟨_, rfl⟩
  · intro hw hh hcells
    exact computeLoss_window_congr g g' target hw hh hcells
  
/-- Witness for the amended C6: two concrete 3x3 grids with different boundary
policies but identical (all-off) window contents get the same loss, and the
error characterization holds at a malformed target. -/
theorem claim6_loss_window_amended_witness :
    computeLoss padGrid3 targetFalse5 = computeLoss offTorus3 targetFalse5
    ∧ ((∃ e, computeLoss padGrid3 [] = .error e) ↔
        ¬(([] : List (List Bool)).length = 5 ∧ (([] : List (List Bool)).getD 0 []).length = 5)) :=
  ⟨(claim6_loss_window_amended padGrid3 offTorus3 targetFalse5).2.2 rfl rfl
      (by intro ty tx hty htx; interval_cases ty <;> interval_cases tx <;> rfl),
    (claim6_loss_window_amended padGrid3 offTorus3 []).1⟩

/-- GeneticAlgorithm._resetToSeedCell (lines 91-96, identical in Trainer and
Game): clear the grid, then switch on the single center cell (no state vector
supplied). -/
def resetToSeedCell (g : Grid) : Grid :=
  setCell (clearGrid g) ((g.width / 2 : ℕ) : ℤ) ((g.height / 2 : ℕ) : ℤ) true none

/-- The genSteps-fold of update() used by _evaluateFitness, for an initialized
network. -/
def runStepsFn (f : List ℚ → Cell) : ℕ → Grid → Grid
  | 0, g => g
  | n + 1, g => runStepsFn f n (updateFn f g)

/-- The update() loop of _evaluateFitness as written: each step goes through
CellularAutomata.update, which throws on an uninitialized network. -/
def runSteps (net : Network) : ℕ → Grid → Except String Grid
  | 0, g => .ok g
  | n + 1, g =>
      match caUpdate net g with
      | .ok g' => runSteps net n g'
      | .error e => .error e

/-- GeneticAlgorithm._evaluateFitness (lines 105-129): reset the grid to the
center seed cell, run the CA for genSteps steps with the candidate network
(temporarily swapped in for the CA's network), compute the loss of the final
grid, and derive fitness = 1/(loss + 0.0001). -/
def evaluateFitness (g : Grid) (net : Network) (target : List (List Bool))
    (genSteps : ℕ) : Except String (ℚ × ℚ) :=
  match runSteps net genSteps (resetToSeedCell g) with
  | .error e => .error e
  | .ok g' =>
      match computeLoss g' target with
      | .error e => .error e
      | .ok loss => .ok (1 / (loss + 1 / 10000), loss)

/-- Observational equivalence of grids: same dimensions and configuration, and
equal getCell views everywhere (the JS cells array has no observable content
beyond this). -/
def GridEquiv (g1 g2 : Grid) : Prop :=
  g1.width = g2.width ∧ g1.height = g2.height ∧ g1.stateLen = g2.stateLen ∧
    g1.boundary = g2.boundary ∧ ∀ x y : ℤ, getCell g1 x y = getCell g2 x y

theorem getNeighborInput_congr {g1 g2 : Grid} (h : GridEquiv g1 g2) (x y : ℤ) :
    getNeighborInput g1 x y = getNeighborInput g2 x y := by
  obtain ⟨hw, hh, hk, hb, hc⟩ := h
  unfold getNeighborInput getNeighbors
  rw [hk, hc x (y - 1), hc x (y + 1), hc (x - 1) y, hc (x + 1) y, hc x y]

theorem updateFn_equiv {g1 g2 : Grid} (f : List ℚ → Cell) (h : GridEquiv g1 g2)
    (hw0 : 0 < g1.width) (hh0 : 0 < g1.height) :
    GridEquiv (updateFn f g1) (updateFn f g2) := by
  obtain ⟨hw, hh, hk, hb, hc⟩ := h
  refine ⟨by rw [updateFn_width, updateFn_width, hw],
    by rw [updateFn_height, updateFn_height, hh],
    by rw [updateFn_stateLen, updateFn_stateLen, hk],
    by rw [updateFn_boundary, updateFn_boundary, hb], ?_⟩
  intro x y
  match hbnd : g1.boundary with
  | .torus =>
      have hbnd2 : g2.boundary = .torus := by rw [← hb, hbnd]
      rw [getCell_updateFn_torus f g1 hbnd hw0 hh0,
        getCell_updateFn_torus f g2 hbnd2 (hw ▸ hw0) (hh ▸ hh0),
        hk, hc x y, getNeighborInput_congr ⟨hw, hh, hk, hb, hc⟩ x y]
  | .padding =>
      have hbnd2 : g2.boundary = .padding := by rw [← hb, hbnd]
      rw [getCell_updateFn_padding f g1 hbnd, getCell_updateFn_padding f g2 hbnd2]
      have hrg : inRange g1 x y ↔ inRange g2 x y := by
        unfold inRange
        rw [hw, hh]
      by_cases hr : inRange g1 x y
      · rw [if_pos hr, if_pos (hrg.mp hr), hk, hc x y,
          getNeighborInput_congr ⟨hw, hh, hk, hb, hc⟩ x y]
      · rw [if_neg hr, if_neg (fun hx => hr (hrg.mpr hx)), hk]

theorem runStepsFn_equiv {g1 g2 : Grid} (f : List ℚ → Cell) (n : ℕ) (h : GridEquiv g1 g2)
    (hw0 : 0 < g1.width) (hh0 : 0 < g1.height) :
    GridEquiv (runStepsFn f n g1) (runStepsFn f n g2) := by
  induction n generalizing g1 g2 with
  | zero => exact h
  | succ m ih =>
      have h1 := updateFn_equiv f h hw0 hh0
      exact ih h1 (by rw [updateFn_width]; exact hw0) (by rw [updateFn_height]; exact hh0)

theorem mseLoss_equiv {g1 g2 : Grid} (target : List (List Bool)) (h : GridEquiv g1 g2) :
    mseLoss g1 target = mseLoss g2 target := by
  obtain ⟨hw, hh, hk, hb, hc⟩ := h
  refine mseLoss_window_congr g1 g2 target hw hh ?_
  intro ty tx _ _
  have hcx : lossCenterX g1 = lossCenterX g2 := by unfold lossCenterX; rw [hw]
  have hcy : lossCenterY g1 = lossCenterY g2 := by unfold lossCenterY; rw [hh]
  rw [hc (lossCenterX g1 + tx) (lossCenterY g1 + ty), hcx, hcy]

theorem runSteps_ok (net : Network) (hinit : net.isInitialized = true) (n : ℕ) (g : Grid) :
    runSteps net n g = .ok (runStepsFn net.f n g) := by
  induction n generalizing g with
  | zero => rfl
  | succ m ih =>
      unfold runSteps caUpdate
      rw [if_pos hinit]
      exact ih (updateFn net.f g)

theorem runSteps_uninit (net : Network) (hinit : net.isInitialized = false) (n : ℕ)
    (hn : 0 < n) (g : Grid) :
    runSteps net n g =
      .error "Neural network not initialized. Call neuralNetwork.initialize() first." := by
  match n, hn with
  | m + 1, _ =>
      unfold runSteps caUpdate
      rw [if_neg (by rw [hinit]; exact Bool.false_ne_true)]

theorem resetToSeedCell_width (g : Grid) : (resetToSeedCell g).width = g.width := by
  unfold resetToSeedCell
  rw [setCell_width]
  rfl

theorem resetToSeedCell_height (g : Grid) : (resetToSeedCell g).height = g.height := by
  unfold resetToSeedCell
  rw [setCell_height]
  rfl

theorem resetToSeedCell_stateLen (g : Grid) : (resetToSeedCell g).stateLen = g.stateLen := by
  unfold resetToSeedCell
  rw [setCell_stateLen]
  rfl

theorem resetToSeedCell_boundary (g : Grid) : (resetToSeedCell g).boundary = g.boundary := by
  unfold resetToSeedCell
  rw [setCell_boundary]
  rfl

theorem resetToSeedCell_cells_inRange (g : Grid) (hWF : WellFormed g) (x y : ℤ)
    (hr : inRange g x y) :
    (resetToSeedCell g).cells y x =
      if y = ((g.height / 2 : ℕ) : ℤ) ∧ x = ((g.width / 2 : ℕ) : ℤ) then
        { isOn := true, stateVector := zeros g.stateLen }
      else { isOn := false, stateVector := zeros g.stateLen } := by
  obtain ⟨h1, h2, h3, h4⟩ := hr
  have hw0 : 0 < g.width := by omega
  have hh0 : 0 < g.height := by omega
  have hcx : ((g.width / 2 : ℕ) : ℤ) < (g.width : ℤ) := by
    exact_mod_cast Nat.div_lt_self hw0 (by norm_num)
  have hcy : ((g.height / 2 : ℕ) : ℤ) < (g.height : ℤ) := by
    exact_mod_cast Nat.div_lt_self hh0 (by norm_num)
  have hwc : (clearGrid g).width = g.width := rfl
  have hhc : (clearGrid g).height = g.height := rfl
  have hclear : ∀ x' y' : ℤ, 0 ≤ x' → x' < (g.width : ℤ) → 0 ≤ y' → y' < (g.height : ℤ) →
      (clearGrid g).cells y' x' =
        { isOn := false, stateVector := zeros g.stateLen } := by
    intro x' y' a1 a2 a3 a4
    unfold clearGrid
    simp only
    rw [if_pos ⟨a1, a2, a3, a4⟩]
    rw [hWF x' y' ⟨a1, a2, a3, a4⟩]
    rfl
  unfold resetToSeedCell setCell
  rw [hwc, hhc]
  rw [if_neg (by
    push_neg
    refine ⟨by positivity, hcx, by positivity, hcy⟩)]
  simp only
  by_cases hcenter : y = ((g.height / 2 : ℕ) : ℤ) ∧ x = ((g.width / 2 : ℕ) : ℤ)
  · rw [if_pos hcenter, if_pos hcenter]
    rw [hclear _ _ (by positivity) hcx (by positivity) hcy]
  · rw [if_neg hcenter, if_neg hcenter]
    exact hclear x y h1 h2 h3 h4

theorem getCell_eq_of_cells (g1 g2 : Grid) (hw : g1.width = g2.width)
    (hh : g1.height = g2.height) (hk : g1.stateLen = g2.stateLen)
    (hb : g1.boundary = g2.boundary) (hw0 : 0 < g1.width) (hh0 : 0 < g1.height)
    (hc : ∀ x y : ℤ, inRange g1 x y → g1.cells y x = g2.cells y x) :
    ∀ x y : ℤ, getCell g1 x y = getCell g2 x y := by
  intro x y
  unfold getCell
  match hbnd : g1.boundary with
  | .torus =>
      have hbnd2 : g2.boundary = .torus := by rw [← hb, hbnd]
      rw [hbnd2]
      rw [← hw, ← hh]
      obtain ⟨a1, a2⟩ := wrapCoord_mem_range x g1.width hw0
      obtain ⟨b1, b2⟩ := wrapCoord_mem_range y g1.height hh0
      exact hc _ _ ⟨a1, a2, b1, b2⟩
  | .padding =>
      have hbnd2 : g2.boundary = .padding := by rw [← hb, hbnd]
      rw [hbnd2]
      rw [← hw, ← hh, ← hk]
      by_cases hg : x < 0 ∨ (g1.width : ℤ) ≤ x ∨ y < 0 ∨ (g1.height : ℤ) ≤ y
      · rw [if_pos hg, if_pos hg]
      · rw [if_neg hg, if_neg hg]
        exact hc x y (by unfold inRange; omega)

theorem resetToSeedCell_equiv (g1 g2 : Grid) (hw : g1.width = g2.width)
    (hh : g1.height = g2.height) (hk : g1.stateLen = g2.stateLen)
    (hb : g1.boundary = g2.boundary) (hWF1 : WellFormed g1) (hWF2 : WellFormed g2)
    (hw0 : 0 < g1.width) (hh0 : 0 < g1.height) :
    GridEquiv (resetToSeedCell g1) (resetToSeedCell g2) := by
  refine ⟨by rw [resetToSeedCell_width, resetToSeedCell_width, hw],
    by rw [resetToSeedCell_height, resetToSeedCell_height, hh],
    by rw [resetToSeedCell_stateLen, resetToSeedCell_stateLen, hk],
    by rw [resetToSeedCell_boundary, resetToSeedCell_boundary, hb], ?_⟩
  refine getCell_eq_of_cells _ _
    (by rw [resetToSeedCell_width, resetToSeedCell_width, hw])
    (by rw [resetToSeedCell_height, resetToSeedCell_height, hh])
    (by rw [resetToSeedCell_stateLen, resetToSeedCell_stateLen, hk])
    (by rw [resetToSeedCell_boundary, resetToSeedCell_boundary, hb])
    (by rw [resetToSeedCell_width]; exact hw0)
    (by rw [resetToSeedCell_height]; exact hh0) ?_
  intro x y hr
  have hr1 : inRange g1 x y := by
    unfold inRange at hr ⊢
    rw [resetToSeedCell_width, resetToSeedCell_height] at hr
    exact hr
  have hr2 : inRange g2 x y := by
    unfold inRange at hr1 ⊢
    omega
  rw [resetToSeedCell_cells_inRange g1 hWF1 x y hr1,
    resetToSeedCell_cells_inRange g2 hWF2 x y hr2, hw, hh, hk]

theorem computeLoss_equiv {g1 g2 : Grid} (target : List (List Bool)) (h : GridEquiv g1 g2) :
    computeLoss g1 target = computeLoss g2 target := by
  unfold computeLoss
  rw [mseLoss_equiv target h]

/-- C9: fitness evaluation never observes residual grid contents. Two calls to
_evaluateFitness on grids of the same configuration but arbitrary (well-formed)
contents return identical {fitness, loss} results, because the grid is reset to
the single center seed cell before the rollout. -/
theorem claim9_fitness_noninterference (g1 g2 : Grid) (net : Network)
    (target : List (List Bool)) (genSteps : ℕ)
    (hw : g1.width = g2.width) (hh : g1.height = g2.height)
    (hk : g1.stateLen = g2.stateLen) (hb : g1.boundary = g2.boundary)
    (hWF1 : WellFormed g1) (hWF2 : WellFormed g2)
    (hw0 : 0 < g1.width) (hh0 : 0 < g1.height) :
    evaluateFitness g1 net target genSteps = evaluateFitness g2 net target genSteps := by
  have hseed : GridEquiv (resetToSeedCell g1) (resetToSeedCell g2) :=
    resetToSeedCell_equiv g1 g2 hw hh hk hb hWF1 hWF2 hw0 hh0
  have hsw : 0 < (resetToSeedCell g1).width := by rw [resetToSeedCell_width]; exact hw0
  have hsh : 0 < (resetToSeedCell g1).height := by rw [resetToSeedCell_height]; exact hh0
  unfold evaluateFitness
  match hinit : net.isInitialized with
  | true =>
      rw [runSteps_ok net hinit, runSteps_ok net hinit]
      have hrun : GridEquiv (runStepsFn net.f genSteps (resetToSeedCell g1))
          (runStepsFn net.f genSteps (resetToSeedCell g2)) :=
        runStepsFn_equiv net.f genSteps hseed hsw hsh
      dsimp only
      rw [computeLoss_equiv target hrun]
  | false =>
      match genSteps with
      | 0 =>
          simp only [runSteps]
          rw [computeLoss_equiv target hseed]
      | n + 1 =>
          rw [runSteps_uninit net hinit (n + 1) (by omega),
            runSteps_uninit net hinit (n + 1) (by omega)]

/-- All-off 9x9 torus grid (K = 2). -/
def offTorus9 : Grid :=
  { width := 9, height := 9, stateLen := 2, boundary := .torus
    cells := fun _ _ => { isOn := false, stateVector := [0, 0] } }

/-- A 9x9 torus grid with residual contents: one live cell at (4,4). -/
def dirtyTorus9 : Grid :=
  { width := 9, height := 9, stateLen := 2, boundary := .torus
    cells := fun y x =>
      if y = 4 ∧ x = 4 then { isOn := true, stateVector := [1, 0] }
      else { isOn := false, stateVector := [0, 0] } }

/-- Witness for C9: a clean and a dirty 9x9 grid produce the same evaluation. -/
theorem claim9_fitness_noninterference_witness :
    offTorus9.width = dirtyTorus9.width
    ∧ evaluateFitness offTorus9 netSum targetFalse5 0 =
        evaluateFitness dirtyTorus9 netSum targetFalse5 0 :=
  ⟨rfl,
    claim9_fitness_noninterference offTorus9 dirtyTorus9 netSum targetFalse5 0
      rfl rfl rfl rfl
      (fun _ _ _ => rfl)
      (by
        intro x y h
        unfold dirtyTorus9
        simp only
        split <;> rfl)
      (by decide) (by decide)⟩

/-- State of a CellularAutomata instance as far as the run loop observes it.
The animationFrameId, updateInterval and the updateCallback / completionCallback
fields are external scheduler and UI plumbing with no effect on grid or step
state and are not modeled. -/
structure CAState where
  grid : Grid
  network : Network
  isRunning : Bool
  currentStep : ℕ
  maxSteps : Option ℕ
  isContinuous : Bool

/-- The update() call made by _runLoop on the current state. -/
def caUpdateS (s : CAState) : Except String Grid := caUpdate s.network s.grid

/-- stop() (lines 94-102): stops the loop and resets currentStep (it also cancels
the pending animation frame and clears the completion callback, which are
unmodeled scheduler state). -/
def stopCA (s : CAState) : CAState :=
  { s with isRunning := false, currentStep := 0 }

/-- Step-limit test of _runLoop (line 127):
!isContinuous && maxSteps !== null && currentStep >= maxSteps. -/
def reachedLimit (s : CAState) : Bool :=
  !s.isContinuous &&
    (match s.maxSteps with
      | some m => decide (m ≤ s.currentStep)
      | none => false)

/-- CellularAutomata._runLoop (lines 107-158). Each recursion level is one
scheduled loop iteration; the fuel bounds how many iterations the external
scheduler grants. The result carries the final state and the number of update()
calls attempted. The try/catch around update() means every path returns
normally (Except.ok): a failed update is logged with console.error, the loop is
stopped, and the error is NOT rethrown to the caller. -/
def runLoop : ℕ → CAState → Except String (CAState × ℕ)
  | 0, s => .ok (s, 0)
  | fuel + 1, s =>
      if s.isRunning = false then .ok (s, 0)
      else
        match caUpdateS s with
        | .error _e => .ok (stopCA s, 1)
        | .ok g' =>
            let s' : CAState := { s with grid := g', currentStep := s.currentStep + 1 }
            if reachedLimit s' then .ok (stopCA s', 1)
            else
              match runLoop fuel s' with
              | .ok (sf, n) => .ok (sf, n + 1)
              | .error e => .error e

/-- A running CA whose network was never initialized, so its update() throws. -/
def badCAState : CAState :=
  { grid := offTorus9
    network := { isInitialized := false, f := netSum.f }
    isRunning := true
    currentStep := 0
    maxSteps := none
    isContinuous := false }

/-- C7 counterexample: update() throws on this concrete running state, yet
_runLoop returns normally (the catch block swallows the error after logging it),
so the error is NOT propagated to the caller that started the run; the loop is
stopped after exactly one attempted update. -/
theorem claim7_error_propagation_counterexample :
    caUpdateS badCAState =
      .error "Neural network not initialized. Call neuralNetwork.initialize() first."
    ∧ (runLoop 5 badCAState).toOption.map
        (fun p => (p.1.isRunning, p.1.currentStep, p.2)) = some (false, 0, 1) :=
  ⟨rfl, rfl⟩

/-- C7 (amended): if update() throws during a running loop iteration, the loop
stops (isRunning becomes false, currentStep is reset by stop()), exactly one
update() was attempted (the failed step is never retried and no further update
runs), and _runLoop returns normally: the error is logged and swallowed, not
propagated to the caller. -/
theorem claim7_error_stops_loop_amended (s : CAState) (fuel : ℕ) (e : String)
    (hrun : s.isRunning = true) (herr : caUpdateS s = .error e) :
    runLoop (fuel + 1) s = .ok (stopCA s, 1) ∧ (stopCA s).isRunning = false := by
  constructor
  · unfold runLoop
    rw [if_neg (by rw [hrun]; simp), herr]
  · rfl

/-- Witness for the amended C7 at the concrete bad state. -/
theorem claim7_error_stops_loop_amended_witness :
    badCAState.isRunning = true
    ∧ caUpdateS badCAState =
        .error "Neural network not initialized. Call neuralNetwork.initialize() first."
    ∧ runLoop 1 badCAState = .ok (stopCA badCAState, 1) :=
  ⟨rfl, rfl, (claim7_error_stops_loop_amended badCAState 0 _ rfl rfl).1⟩

/-- JavaScript value returned by the progress callback; only what the early-stop
check can distinguish is modeled. -/
inductive JSVal where
  | bool (b : Bool)
  | num (q : ℚ)
  | str (s : String)
  | null
  | undefined
deriving DecidableEq

/-- JavaScript truthiness test (what a false-like value means): false, 0, the
empty string, null and undefined are falsy. -/
def jsFalsy : JSVal → Bool
  | .bool b => !b
  | .num q => decide (q = 0)
  | .str s => decide (s = "")
  | .null => true
  | .undefined => true

/-- A population individual after fitness evaluation: the candidate network
(GA individuals are always initialized, since _createNetwork calls initialize,
so only the prediction function identifies them) with its fitness and loss. -/
structure Evaluated where
  net : List ℚ → Cell
  fitness : ℚ
  loss : ℚ

/-- The {fitness, loss} pair _evaluateFitness produces for an initialized
network inside train() (where the target has already been validated, making
the Except paths of evaluateFitness unreachable): reset to seed, run genSteps
updates, MSE loss, fitness = 1/(loss + 0.0001). -/
def evalFitnessFn (g : Grid) (f : List ℚ → Cell) (target : List (List Bool))
    (genSteps : ℕ) : ℚ × ℚ :=
  let loss := mseLoss (runStepsFn f genSteps (resetToSeedCell g)) target
  (1 / (loss + 1 / 10000), loss)

theorem evaluateFitness_ok (g : Grid) (f : List ℚ → Cell) (target : List (List Bool))
    (genSteps : ℕ) (hvalid : target.length = 5 ∧ (target.getD 0 []).length = 5) :
    evaluateFitness g { isInitialized := true, f := f } target genSteps =
      .ok (evalFitnessFn g f target genSteps) := by
  unfold evaluateFitness
  rw [runSteps_ok _ rfl]
  dsimp only
  unfold computeLoss
  rw [if_pos hvalid]
  rfl

/-- Evaluation of one individual in train()'s fitness loop. -/
def evalOne (g : Grid) (target : List (List Bool)) (genSteps : ℕ)
    (f : List ℚ → Cell) : Evaluated :=
  { net := f
    fitness := (evalFitnessFn g f target genSteps).1
    loss := (evalFitnessFn g f target genSteps).2 }

/-- Insertion step of the fitness sort. -/
def insertByFitness (e : Evaluated) : List Evaluated → List Evaluated
  | [] => [e]
  | a :: rest => if e.fitness ≤ a.fitness then a :: insertByFitness e rest else e :: a :: rest

/-- population.sort((a, b) => b.fitness - a.fitness): sorts descending by
fitness. Array.prototype.sort leaves the tie order unspecified up to stability;
insertion sort realizes one valid outcome, and every property proved below uses
only that the result is a permutation with a maximal-fitness head. -/
def sortByFitness : List Evaluated → List Evaluated
  | [] => []
  | e :: rest => insertByFitness e (sortByFitness rest)

/-- Placeholder individual for headD on an impossible empty population
(population[0] would be undefined in JS; train always has populationSize >= 1
individuals since config.populationSize || 30 is positive). -/
def defaultEvaluated : Evaluated :=
  { net := fun _ => { isOn := false, stateVector := [] }, fitness := 0, loss := 0 }

/-- Best (recorded) loss of a population: the loss of population[0] after the
fitness sort. -/
def bestLossOf (g : Grid) (target : List (List Bool)) (genSteps : ℕ)
    (pop : List (List ℚ → Cell)) : ℚ :=
  ((sortByFitness (pop.map (evalOne g target genSteps))).headD defaultEvaluated).loss

/-- Generation loop of GeneticAlgorithm.train (lines 264-346). Arguments: the
progress callback cb (generation number, best loss; the third JS argument is
the constant true), the oracle producing the crossover+mutation children of a
generation (abstracting tf.randomUniform / tf.randomNormal draws; the code
builds populationSize - eliteCount children from the top two parents), the
elite count, the population, the 0-based generation index, and the remaining
generation count. Per generation: evaluate all individuals, sort by fitness,
record the best loss, invoke the callback and stop unless its result !== false,
and (except on the last generation) build the next population from eliteCount
parameter clones of the top individuals plus the children. -/
def trainLoop (g : Grid) (target : List (List Bool)) (genSteps : ℕ)
    (cb : ℕ → ℚ → JSVal) (oracle : ℕ → List Evaluated → List (List ℚ → Cell))
    (eliteCount : ℕ) : List (List ℚ → Cell) → ℕ → ℕ → List ℚ
  | _pop, _gen, 0 => []
  | pop, gen, r + 1 =>
      let sorted := sortByFitness (pop.map (evalOne g target genSteps))
      let bestLoss := (sorted.headD defaultEvaluated).loss
      if cb (gen + 1) bestLoss = JSVal.bool false then [bestLoss]
      else if r = 0 then [bestLoss]
      else bestLoss ::
        trainLoop g target genSteps cb oracle eliteCount
          ((sorted.take eliteCount).map Evaluated.net ++ oracle gen sorted) (gen + 1) r

/-- GeneticAlgorithm.train (lines 251-352): validates the 5x5 target, then runs
the generation loop for numGenerations generations and returns the per-generation
best-loss history. The stochastic initial population (_initializePopulation) is
supplied as the pop argument. -/
def train (g : Grid) (cb : ℕ → ℚ → JSVal)
    (oracle : ℕ → List Evaluated → List (List ℚ → Cell)) (eliteCount : ℕ)
    (pop : List (List ℚ → Cell)) (target : List (List Bool))
    (numGenerations genSteps : ℕ) : Except String (List ℚ) :=
  if target.length = 5 ∧ (target.getD 0 []).length = 5 then
    .ok (trainLoop g target genSteps cb oracle eliteCount pop 0 numGenerations)
  else .error "Target shape must be a 5x5 boolean array"

theorem insertByFitness_perm (e : Evaluated) (l : List Evaluated) :
    (insertByFitness e l).Perm (e :: l) := by
  induction l with
  | nil => exact List.Perm.refl _
  | cons a rest ih =>
      unfold insertByFitness
      by_cases hf : e.fitness ≤ a.fitness
      · rw [if_pos hf]
        exact (ih.cons a).trans (List.Perm.swap e a rest)
      · rw [if_neg hf]

theorem sortByFitness_perm (l : List Evaluated) : (sortByFitness l).Perm l := by
  induction l with
  | nil => exact List.Perm.refl _
  | cons e rest ih =>
      unfold sortByFitness
      exact (insertByFitness_perm e (sortByFitness rest)).trans (ih.cons e)

theorem sortByFitness_head_max (l : List Evaluated) :
    ∀ x ∈ sortByFitness l,
      x.fitness ≤ ((sortByFitness l).headD defaultEvaluated).fitness := by
  induction l with
  | nil => intro x hx; exact absurd hx (List.not_mem_nil x)
  | cons e rest ih =>
      intro x hx
      unfold sortByFitness at hx ⊢
      match hs : sortByFitness rest with
      | [] =>
          rw [hs] at hx
          unfold insertByFitness at hx ⊢
          rcases List.mem_singleton.1 hx with rfl
          exact le_refl _
      | a :: t =>
          rw [hs] at hx
          rw [hs] at ih
          unfold insertByFitness at hx ⊢
          by_cases hf : e.fitness ≤ a.fitness
          · rw [if_pos hf] at hx ⊢
            rcases List.mem_cons.1 hx with rfl | hx2
            · exact le_refl _
            · have hx3 : x ∈ e :: t := (insertByFitness_perm e t).mem_iff.mp hx2
              rcases List.mem_cons.1 hx3 with rfl | hx4
              · exact hf
              · exact ih x (List.mem_cons_of_mem a hx4)
          · rw [if_neg hf] at hx ⊢
            rcases List.mem_cons.1 hx with rfl | hx2
            · exact le_refl _
            · rcases List.mem_cons.1 hx2 with rfl | hx3
              · exact le_of_lt (lt_of_not_le hf)
              · exact le_trans (ih x (List.mem_cons_of_mem a hx3))
                  (le_of_lt (lt_of_not_le hf))

theorem evalOne_fitness (g : Grid) (target : List (List Bool)) (genSteps : ℕ)
    (f : List ℚ → Cell) :
    (evalOne g target genSteps f).fitness =
      1 / ((evalOne g target genSteps f).loss + 1 / 10000) := rfl

theorem evalOne_loss_nonneg (g : Grid) (target : List (List Bool)) (genSteps : ℕ)
    (f : List ℚ → Cell) : 0 ≤ (evalOne g target genSteps f).loss :=
  mseLoss_nonneg _ _

theorem mem_map_evalOne_shape (g : Grid) (target : List (List Bool)) (genSteps : ℕ)
    (pop : List (List ℚ → Cell)) (e : Evaluated)
    (he : e ∈ pop.map (evalOne g target genSteps)) :
    e = evalOne g target genSteps e.net := by
  rw [List.mem_map] at he
  obtain ⟨f, _, rfl⟩ := he
  rfl

theorem loss_le_of_fitness_ge (a b : ℚ) (ha : 0 ≤ a) (hb : 0 ≤ b)
    (h : 1 / (b + 1 / 10000) ≤ 1 / (a + 1 / 10000)) : a ≤ b := by
  have h1 : (0 : ℚ) < a + 1 / 10000 := by linarith
  have h2 : (0 : ℚ) < b + 1 / 10000 := by linarith
  have h3 := (div_le_div_iff₀ h2 h1).mp h
  linarith

theorem headD_mem {α : Type} {l : List α} (hl : l ≠ []) (d : α) : l.headD d ∈ l := by
  match l with
  | [] => exact absurd rfl hl
  | a :: t => exact List.mem_cons_self a t

theorem bestLossOf_next_le (g : Grid) (target : List (List Bool)) (genSteps : ℕ)
    (pop children : List (List ℚ → Cell)) (k : ℕ) (hk : 1 ≤ k) (hpop : pop ≠ []) :
    bestLossOf g target genSteps
        (((sortByFitness (pop.map (evalOne g target genSteps))).take k).map Evaluated.net
          ++ children)
      ≤ bestLossOf g target genSteps pop := by
  have hsne : sortByFitness (pop.map (evalOne g target genSteps)) ≠ [] := by
    intro hnil
    have hlen := (sortByFitness_perm (pop.map (evalOne g target genSteps))).length_eq
    rw [hnil] at hlen
    simp only [List.length_nil, List.length_map] at hlen
    exact hpop (List.eq_nil_of_length_eq_zero hlen.symm)
  obtain ⟨e0, stail, hs⟩ : ∃ e0 stail,
      sortByFitness (pop.map (evalOne g target genSteps)) = e0 :: stail := by
    match hm : sortByFitness (pop.map (evalOne g target genSteps)) with
    | [] => exact absurd hm hsne
    | a :: t => exact ⟨a, t, rfl⟩
  have he0mem : e0 ∈ pop.map (evalOne g target genSteps) := by
    refine (sortByFitness_perm (pop.map (evalOne g target genSteps))).mem_iff.mp ?_
    rw [hs]
    exact List.mem_cons_self e0 stail
  have he0shape : e0 = evalOne g target genSteps e0.net :=
    mem_map_evalOne_shape g target genSteps pop e0 he0mem
  have hmemnet : e0.net ∈ ((e0 :: stail).take k).map Evaluated.net ++ children := by
    refine List.mem_append_left children ?_
    refine List.mem_map_of_mem Evaluated.net ?_
    match k, hk with
    | k' + 1, _ => exact List.mem_cons_self e0 _
  have hmem2 : e0 ∈ (((e0 :: stail).take k).map Evaluated.net ++ children).map
      (evalOne g target genSteps) := by
    have hm := List.mem_map_of_mem (evalOne g target genSteps) hmemnet
    rw [← he0shape] at hm
    exact hm
  have hE := sortByFitness_perm ((((e0 :: stail).take k).map Evaluated.net ++ children).map
      (evalOne g target genSteps))
  have he0mem2 : e0 ∈ sortByFitness ((((e0 :: stail).take k).map Evaluated.net
      ++ children).map (evalOne g target genSteps)) :=
    hE.symm.mem_iff.mp hmem2
  have hEne : sortByFitness ((((e0 :: stail).take k).map Evaluated.net ++ children).map
      (evalOne g target genSteps)) ≠ [] :=
    List.ne_nil_of_mem he0mem2
  have hfit := sortByFitness_head_max
    ((((e0 :: stail).take k).map Evaluated.net ++ children).map (evalOne g target genSteps))
    e0 he0mem2
  have he1mem : (sortByFitness ((((e0 :: stail).take k).map Evaluated.net ++ children).map
        (evalOne g target genSteps))).headD defaultEvaluated ∈
      (((e0 :: stail).take k).map Evaluated.net ++ children).map (evalOne g target genSteps) :=
    hE.mem_iff.mp (headD_mem hEne defaultEvaluated)
  have he1shape := mem_map_evalOne_shape g target genSteps _ _ he1mem
  have hloss : ((sortByFitness ((((e0 :: stail).take k).map Evaluated.net ++ children).map
      (evalOne g target genSteps))).headD defaultEvaluated).loss ≤ e0.loss := by
    refine loss_le_of_fitness_ge _ _ ?_ ?_ ?_
    · rw [he1shape]
      exact evalOne_loss_nonneg g target genSteps _
    · rw [he0shape]
      exact evalOne_loss_nonneg g target genSteps _
    · have h1 : e0.fitness = 1 / (e0.loss + 1 / 10000) := by
        rw [he0shape]
        exact evalOne_fitness g target genSteps e0.net
      have h2 : ((sortByFitness ((((e0 :: stail).take k).map Evaluated.net ++ children).map
            (evalOne g target genSteps))).headD defaultEvaluated).fitness =
          1 / (((sortByFitness ((((e0 :: stail).take k).map Evaluated.net ++ children).map
            (evalOne g target genSteps))).headD defaultEvaluated).loss + 1 / 10000) := by
        rw [he1shape]
        exact evalOne_fitness g target genSteps _
      rw [← h1, ← h2]
      exact hfit
  unfold bestLossOf
  rw [hs]
  exact hloss

theorem trainLoop_head_pos (g : Grid) (target : List (List Bool)) (genSteps : ℕ)
    (cb : ℕ → ℚ → JSVal) (oracle : ℕ → List Evaluated → List (List ℚ → Cell)) (k : ℕ)
    (pop : List (List ℚ → Cell)) (gen r : ℕ) (hr : 0 < r) :
    (trainLoop g target genSteps cb oracle k pop gen r).head? =
      some (bestLossOf g target genSteps pop) := by
  match r, hr with
  | r' + 1, _ =>
      simp only [trainLoop]
      split
      · rfl
      · split
        · rfl
        · rfl

theorem nextPop_ne_nil (g : Grid) (target : List (List Bool)) (genSteps : ℕ)
    (pop children : List (List ℚ → Cell)) (k : ℕ) (hk : 1 ≤ k) (hpop : pop ≠ []) :
    ((sortByFitness (pop.map (evalOne g target genSteps))).take k).map Evaluated.net
      ++ children ≠ [] := by
  have hsne : sortByFitness (pop.map (evalOne g target genSteps)) ≠ [] := by
    intro hnil
    have hlen := (sortByFitness_perm (pop.map (evalOne g target genSteps))).length_eq
    rw [hnil] at hlen
    simp only [List.length_nil, List.length_map] at hlen
    exact hpop (List.eq_nil_of_length_eq_zero hlen.symm)
  obtain ⟨e0, stail, hs⟩ : ∃ e0 stail,
      sortByFitness (pop.map (evalOne g target genSteps)) = e0 :: stail := by
    match hm : sortByFitness (pop.map (evalOne g target genSteps)) with
    | [] => exact absurd hm hsne
    | a :: t => exact ⟨a, t, rfl⟩
  rw [hs]
  match k, hk with
  | k' + 1, _ => simp

theorem trainLoop_chain (g : Grid) (target : List (List Bool)) (genSteps : ℕ)
    (cb : ℕ → ℚ → JSVal) (oracle : ℕ → List Evaluated → List (List ℚ → Cell)) (k : ℕ)
    (hk : 1 ≤ k) :
    ∀ (r : ℕ) (pop : List (List ℚ → Cell)) (gen : ℕ), pop ≠ [] →
      (trainLoop g target genSteps cb oracle k pop gen r).Chain' (fun a b => b ≤ a) := by
  intro r
  induction r with
  | zero =>
      intro pop gen _
      simp only [trainLoop]
      exact List.chain'_nil
  | succ r' ih =>
      intro pop gen hpop
      simp only [trainLoop]
      split
      · exact List.chain'_singleton _
      · split
        · exact List.chain'_singleton _
        · rename_i hcb hr0
          rw [List.chain'_cons']
          constructor
          · intro b hb
            rw [trainLoop_head_pos g target genSteps cb oracle k _ (gen + 1) r'
              (Nat.pos_of_ne_zero hr0)] at hb
            simp only [Option.mem_def, Option.some.injEq] at hb
            rw [← hb]
            exact bestLossOf_next_le g target genSteps pop _ k hk hpop
          · exact ih _ (gen + 1)
              (nextPop_ne_nil g target genSteps pop _ k hk hpop)

/-- C4: with eliteCount >= 1 and a nonempty population, the per-generation
best-loss history returned by train() is non-increasing: the top individuals
are cloned unchanged into the next population and their deterministic
re-evaluation bounds the next generation's sorted best from above. -/
theorem claim4_elite_monotonic (g : Grid) (cb : ℕ → ℚ → JSVal)
    (oracle : ℕ → List Evaluated → List (List ℚ → Cell)) (eliteCount : ℕ)
    (pop : List (List ℚ → Cell)) (target : List (List Bool)) (numGen genSteps : ℕ)
    (hist : List ℚ) (helite : 1 ≤ eliteCount) (hpop : pop ≠ [])
    (htrain : train g cb oracle eliteCount pop target numGen genSteps = .ok hist) :
    hist.Chain' (fun a b => b ≤ a) := by
  unfold train at htrain
  by_cases hval : target.length = 5 ∧ (target.getD 0 []).length = 5
  · rw [if_pos hval] at htrain
    injection htrain with h'
    rw [← h']
    exact trainLoop_chain g target genSteps cb oracle eliteCount helite numGen pop 0 hpop
  · rw [if_neg hval] at htrain
    exact absurd htrain (by simp)

/-- Witness for C4: a concrete two-generation training run has a non-increasing
loss history. -/
theorem claim4_elite_monotonic_witness :
    1 ≤ 1 ∧ ([netSum.f] ≠ ([] : List (List ℚ → Cell)))
    ∧ (trainLoop offTorus9 targetFalse5 0 (fun _ _ => JSVal.bool true) (fun _ _ => [])
        1 [netSum.f] 0 2).Chain' (fun a b => b ≤ a) :=
  ⟨le_refl 1, by simp,
    claim4_elite_monotonic offTorus9 (fun _ _ => JSVal.bool true) (fun _ _ => []) 1
      [netSum.f] targetFalse5 2 0 _ (le_refl 1) (by simp)
      (by unfold train; rw [if_pos (by decide)])⟩

theorem trainLoop_stop (g : Grid) (target : List (List Bool)) (genSteps : ℕ)
    (cb : ℕ → ℚ → JSVal) (k : ℕ) :
    ∀ (r : ℕ) (pop : List (List ℚ → Cell)) (gen gstop : ℕ)
      (oracle oracle2 : ℕ → List Evaluated → List (List ℚ → Cell)),
      gen < gstop → gstop ≤ gen + r →
      (∀ n bl, gen < n → n < gstop → cb n bl ≠ JSVal.bool false) →
      (∀ bl, cb gstop bl = JSVal.bool false) →
      (∀ n s, n + 1 < gstop → oracle2 n s = oracle n s) →
      (trainLoop g target genSteps cb oracle k pop gen r).length = gstop - gen
      ∧ trainLoop g target genSteps cb oracle2 k pop gen r =
          trainLoop g target genSteps cb oracle k pop gen r := by
  intro r
  induction r with
  | zero =>
      intro pop gen gstop o o2 h1 h2 _ _ _
      exact absurd h1 (by omega)
  | succ r' ih =>
      intro pop gen gstop o o2 h1 h2 hbefore hstop horacle
      simp only [trainLoop]
      by_cases hg : gstop = gen + 1
      · have hcb : cb (gen + 1)
            ((sortByFitness (pop.map (evalOne g target genSteps))).headD
              defaultEvaluated).loss = JSVal.bool false := by
          rw [← hg]
          exact hstop _
        rw [if_pos hcb, if_pos hcb]
        refine ⟨?_, rfl⟩
        simp only [List.length_singleton]
        omega
      · have hgen1 : gen + 1 < gstop := by omega
        have hcbne : cb (gen + 1)
            ((sortByFitness (pop.map (evalOne g target genSteps))).headD
              defaultEvaluated).loss ≠ JSVal.bool false :=
          hbefore (gen + 1) _ (by omega) hgen1
        rw [if_neg hcbne, if_neg hcbne]
        have hr0 : ¬(r' = 0) := by omega
        rw [if_neg hr0, if_neg hr0]
        have ho : o2 gen (sortByFitness (pop.map (evalOne g target genSteps))) =
            o gen (sortByFitness (pop.map (evalOne g target genSteps))) :=
          horacle gen _ (by omega)
        rw [ho]
        obtain ⟨ihlen, iheq⟩ := ih
          (((sortByFitness (pop.map (evalOne g target genSteps))).take k).map Evaluated.net
            ++ o gen (sortByFitness (pop.map (evalOne g target genSteps))))
          (gen + 1) gstop o o2 hgen1 (by omega)
          (fun n bl a b => hbefore n bl (by omega) b) hstop horacle
        refine ⟨?_, ?_⟩
        · rw [List.length_cons, ihlen]
          omega
        · rw [iheq]

/-- C8 counterexample: a progress callback returning the false-like value 0
does NOT stop training (the code tests !== false, so only the exact value
false stops): with numGenerations = 2 the history has 2 entries, not 1. -/
theorem claim8_falsy_counterexample :
    jsFalsy (JSVal.num 0) = true
    ∧ (trainLoop offTorus9 targetFalse5 0 (fun _ _ => JSVal.num 0) (fun _ _ => [])
        1 [netSum.f] 0 2).length = 2 := by
  constructor
  · rfl
  · simp [trainLoop]

/-- C8 (amended): training stops early exactly when the progress callback
returns the value false (progressCallback(...) !== false; other false-like
values such as 0, null or undefined do not stop it). When the callback first
returns false at generation g <= numGenerations, the returned history has
exactly g entries (generation g's best loss is recorded before the check), and
no later generation's population is built: the child oracle is never consulted
at or beyond the stopping generation. -/
theorem claim8_early_stop_amended (g : Grid) (cb : ℕ → ℚ → JSVal)
    (oracle oracle2 : ℕ → List Evaluated → List (List ℚ → Cell)) (eliteCount : ℕ)
    (pop : List (List ℚ → Cell)) (target : List (List Bool)) (numGen genSteps : ℕ)
    (gstop : ℕ) (hg1 : 1 ≤ gstop) (hg2 : gstop ≤ numGen)
    (hvalid : target.length = 5 ∧ (target.getD 0 []).length = 5)
    (hbefore : ∀ n bl, n < gstop → cb n bl ≠ JSVal.bool false)
    (hstop : ∀ bl, cb gstop bl = JSVal.bool false)
    (horacle : ∀ n s, n + 1 < gstop → oracle2 n s = oracle n s) :
    (∃ hist, train g cb oracle eliteCount pop target numGen genSteps = .ok hist
        ∧ hist.length = gstop)
    ∧ train g cb oracle2 eliteCount pop target numGen genSteps =
        train g cb oracle eliteCount pop target numGen genSteps := by
  have h := trainLoop_stop g target genSteps cb eliteCount numGen pop 0 gstop oracle oracle2
    (by omega) (by omega) (fun n bl _ b => hbefore n bl b) hstop horacle
  unfold train
  rw [if_pos hvalid]
  refine ⟨⟨_, rfl, ?_⟩, ?_⟩
  · rw [h.1]
    omega
  · rw [if_pos hvalid, h.2]

/-- Callback that returns the exact value false at generation 2 and true
before. -/
def cbStop : ℕ → ℚ → JSVal := fun n _ => JSVal.bool (decide (n < 2))

/-- Witness for the amended C8 at a concrete three-generation run stopping at
generation 2. -/
theorem claim8_early_stop_amended_witness :
    1 ≤ 2 ∧ 2 ≤ 3
    ∧ (∃ hist, train offTorus9 cbStop (fun _ _ => []) 1 [netSum.f] targetFalse5 3 0 =
          .ok hist ∧ hist.length = 2) :=
  ⟨by omega, by omega,
    (claim8_early_stop_amended offTorus9 cbStop (fun _ _ => []) (fun _ _ => []) 1 [netSum.f]
      targetFalse5 3 0 2 (by omega) (by omega) (by decide)
      (by intro n bl h; interval_cases n <;> simp [cbStop])
      (fun bl => rfl)
      (fun n s h => rfl)).1⟩

/-- A 5x5 target with only the center pixel on. -/
def targetCenter5 : List (List Bool) :=
  [List.replicate 5 false, List.replicate 5 false,
    [false, false, true, false, false],
    List.replicate 5 false, List.replicate 5 false]

/-- C5 counterexample: Game.calculateError returns loss 0 for the all-off 5x5
target (its empty-target early return fires before the grid is read) even
though the extracted center window is NOT all off: the window cell at
(tx,ty) = (2,2) is on while the target bit there is off, so loss == 0 does not
imply that the extracted window equals the target. -/
theorem claim5_allOff_target_counterexample :
    calculateError dirtyTorus9 targetFalse5 = .ok 0
    ∧ (getCell dirtyTorus9 (lossCenterX dirtyTorus9 + (2 : ℕ))
        (lossCenterY dirtyTorus9 + (2 : ℕ))).isOn = true
    ∧ (targetFalse5.getD 2 []).getD 2 false = false :=
  ⟨rfl, by decide, rfl⟩

/-- C5 (amended): for GeneticAlgorithm._computeLoss / Trainer.computeLoss the
claim holds as stated: every returned loss lies in [0,1] and is zero exactly
when the extracted 5x5 center window equals the target. Game.calculateError
also only returns losses in [0,1] and agrees with _computeLoss whenever the
target has at least one on pixel (so the zero-iff-match equivalence holds
there too); but for an all-off target it returns 0 without reading the grid,
regardless of the window contents. -/
theorem claim5_loss_bounds_amended (g : Grid) (target : List (List Bool)) (l l2 : ℚ) :
    (computeLoss g target = .ok l →
      0 ≤ l ∧ l ≤ 1
      ∧ (l = 0 ↔ ∀ ty tx : ℕ, ty < 5 → tx < 5 →
          (getCell g (lossCenterX g + tx) (lossCenterY g + ty)).isOn =
            (target.getD ty []).getD tx false))
    ∧ (calculateError g target = .ok l2 → 0 ≤ l2 ∧ l2 ≤ 1)
    ∧ (hasTargetPixel target = true → calculateError g target = computeLoss g target)
    ∧ (hasTargetPixel target = false →
        target.length = 5 ∧ (target.getD 0 []).length = 5 →
        calculateError g target = .ok 0) := by
  refine ⟨?_, ?_, ?_, ?_⟩
  · intro h
    have hl : l = mseLoss g target := by
      unfold computeLoss at h
      by_cases hc : target.length = 5 ∧ (target.getD 0 []).length = 5
      · rw [if_pos hc] at h
        injection h with h'
        exact h'.symm
      · rw [if_neg hc] at h
        exact absurd h (by simp)
    rw [hl]
    exact ⟨mseLoss_nonneg g target, mseLoss_le_one g target, mseLoss_eq_zero_iff g target⟩
  · intro h
    unfold calculateError at h
    by_cases hc : target.length = 5 ∧ (target.getD 0 []).length = 5
    · rw [if_pos hc] at h
      by_cases hp : hasTargetPixel target = true
      · rw [if_pos hp] at h
        injection h with h'
        rw [← h']
        exact ⟨mseLoss_nonneg g target, mseLoss_le_one g target⟩
      · rw [if_neg hp] at h
        injection h with h'
        rw [← h']
        norm_num
    · rw [if_neg hc] at h
      exact absurd h (by simp)
  · intro hp
    unfold calculateError computeLoss
    by_cases hc : target.length = 5 ∧ (target.getD 0 []).length = 5
    · rw [if_pos hc, if_pos hc, if_pos hp]
    · rw [if_neg hc, if_neg hc]
  · intro hp hc
    unfold calculateError
    rw [if_pos hc, if_neg (by rw [hp]; simp)]

/-- Witness for the amended C5: the computeLoss bounds at a concrete zero-loss
input, and calculateError agreeing with computeLoss on a concrete target that
has an on pixel. -/
theorem claim5_loss_bounds_amended_witness :
    computeLoss padGrid3 targetFalse5 = .ok 0
    ∧ (0 ≤ (0 : ℚ) ∧ (0 : ℚ) ≤ 1
        ∧ ((0 : ℚ) = 0 ↔ ∀ ty tx : ℕ, ty < 5 → tx < 5 →
            (getCell padGrid3 (lossCenterX padGrid3 + tx) (lossCenterY padGrid3 + ty)).isOn =
              (targetFalse5.getD ty []).getD tx false))
    ∧ hasTargetPixel targetCenter5 = true
    ∧ calculateError dirtyTorus9 targetCenter5 = computeLoss dirtyTorus9 targetCenter5 :=
  ⟨computeLoss_padGrid3_eval,
    (claim5_loss_bounds_amended padGrid3 targetFalse5 0 0).1 computeLoss_padGrid3_eval,
    rfl,
    (claim5_loss_bounds_amended dirtyTorus9 targetCenter5 0 0).2.2.1 rfl⟩
